import Mathlib

/-!
# Verification development for the RandomCAD packing core

Shallow embedding, in Lean 4, of the parts of the RandomCAD repository that
the verified properties are about:

* `utils.py` — `clip`, `calculate_bounding_circle`, `is_near_boundary`,
  `move_toward_boundary`, `adjust_points_to_boundary`;
* `core/shapes.py` — `optimize_polygon_sides`, `generate_random_polygon`,
  `generate_circle`, `generate_ellipse`;
* `core/quadtree.py` — `QuadtreeNode` (`insert`, `query_range`, `clear`);
* `core/kd_tree.py` — `KDTreeNode` (`insert`, `query_range`, `clear`);
* `core/collision.py` — `calculate_distances_gpu` (its bounding-box
  predicate), `check_collision_hierarchical`;
* `core/group_manager.py` — `GroupManager.select_next_group`;
* `core/generator.py` — `_check_exit_conditions`, the commit path
  `_add_aggregate_to_spatial_index_and_collections`, the boundary-adjustment
  block of `_generate_single_aggregate`, `calculate_porosity`, and the
  generation loop of `generate_aggregates_in_region`.

Modelling conventions:

* Python floats are modelled as exact rationals (`ℚ`).  Every Python float
  is a rational number; the embedding idealises float arithmetic as exact
  rational arithmetic.
* Library routines whose results are not rational (`math.sqrt`,
  `math.hypot`, `math.cos`, `math.sin`, `shapely.distance`) are modelled as
  explicit function parameters ("oracles") standing for the floating-point
  routine; theorems quantify over them, and concrete evaluations instantiate
  them with explicit tables or rational approximations.
* Randomness (`random.uniform`, `random.gauss`) is modelled by passing the
  drawn values in as explicit inputs.
* Python exceptions are modelled with `Option`/`Except`; a `try/except`
  block that skips a failing step is modelled by matching on the `Except`
  value and discarding the error branch.
-/

namespace RandomCAD

/-! ## Bounding boxes

`(min_x, min_y, max_x, max_y)` tuples, as used throughout `quadtree.py`,
`kd_tree.py` and `collision.py`. -/

structure Rect where
  minX : ℚ
  minY : ℚ
  maxX : ℚ
  maxY : ℚ
  deriving DecidableEq, Repr

/-- `_intersects_bounds` of `quadtree.py` (lines 116-138) and `kd_tree.py`
(lines 172-191): two boxes fail to intersect exactly when one is strictly
beyond the other on some axis. -/
def intersectsBounds (b1 b2 : Rect) : Bool :=
  ¬ (b1.maxX < b2.minX ∨ b1.minX > b2.maxX ∨ b1.maxY < b2.minY ∨ b1.minY > b2.maxY)

/-- Bounds expanded by `d` on all sides, as built inline in
`collision.py` (`expanded_bbox`) and `query_shapely`. -/
def expandRect (b : Rect) (d : ℚ) : Rect :=
  ⟨b.minX - d, b.minY - d, b.maxX + d, b.maxY + d⟩

/-- Squared minimum distance between two axis-aligned boxes: the gap on each
axis (0 when the projections overlap), combined by Pythagoras.  For two
disjoint rectangles this is the square of the exact minimum geometric
distance between their outlines, which is what `shapely`'s `distance`
returns on such inputs. -/
def rectGapX (b1 b2 : Rect) : ℚ := max 0 (max (b2.minX - b1.maxX) (b1.minX - b2.maxX))

def rectGapY (b1 b2 : Rect) : ℚ := max 0 (max (b2.minY - b1.maxY) (b1.minY - b2.maxY))

def rectDistSq (b1 b2 : Rect) : ℚ := rectGapX b1 b2 ^ 2 + rectGapY b1 b2 ^ 2

/-! ## `utils.py` -/

/-- `utils.clip` (lines 8-20). -/
def clip (value lower upper : ℚ) : ℚ :=
  if value < lower then lower else if value > upper then upper else value

/-- A 2-D point, `(x, y)`. -/
abbrev Pt := ℚ × ℚ

/-- The centroid part of `utils.calculate_bounding_circle` (lines 73-100):
arithmetic mean of the vertices.  `none` on an empty list, as in the source. -/
def boundingCircleCenter (points : List Pt) : Option Pt :=
  if points = [] then none
  else
    some (((points.map Prod.fst).sum / points.length,
           (points.map Prod.snd).sum / points.length))

/-- The radius part of `utils.calculate_bounding_circle`: the largest
`math.hypot` distance from the centroid to a vertex, with `math.hypot`
modelled by the float-sqrt oracle `sqrtF` applied to the exact squared
distance.  Returns `0.0` for an empty list, as in the source. -/
def boundingCircleRadius (sqrtF : ℚ → ℚ) (points : List Pt) : ℚ :=
  match boundingCircleCenter points with
  | none => 0
  | some c =>
      points.foldl (fun m p =>
        let d := sqrtF ((p.1 - c.1) ^ 2 + (p.2 - c.2) ^ 2)
        if d > m then d else m) 0

/-- `utils.is_near_boundary` (lines 103-132): the center is within
`radius + min_distance * 2` of some region edge. -/
def isNearBoundary (center : Pt) (radius : ℚ) (bmin bmax : Pt) (minDistance : ℚ) : Bool :=
  let leftDist := center.1 - bmin.1
  let rightDist := bmax.1 - center.1
  let bottomDist := center.2 - bmin.2
  let topDist := bmax.2 - center.2
  let threshold := radius + minDistance * 2
  leftDist < threshold ∨ rightDist < threshold ∨ bottomDist < threshold ∨ topDist < threshold

/-- `utils.move_toward_boundary` (lines 135-175).  Python's
`min(distances, key=distances.get)` returns the first key, in dict insertion
order `left, right, bottom, top`, whose distance attains the minimum; the
nested conditionals below spell out exactly that tie-breaking. -/
def moveTowardBoundary (center : Pt) (bmin bmax : Pt) (minDistance : ℚ) : Pt :=
  let leftD := center.1 - bmin.1
  let rightD := bmax.1 - center.1
  let bottomD := center.2 - bmin.2
  let topD := bmax.2 - center.2
  if leftD ≤ rightD ∧ leftD ≤ bottomD ∧ leftD ≤ topD then
    (bmin.1 + minDistance, center.2)
  else if rightD ≤ bottomD ∧ rightD ≤ topD then
    (bmax.1 - minDistance, center.2)
  else if bottomD ≤ topD then
    (center.1, bmin.2 + minDistance)
  else
    (center.1, bmax.2 - minDistance)

/-- `utils.adjust_points_to_boundary` (lines 178-208): clamp each coordinate
independently into `[min_edge + min_distance, max_edge - min_distance]`.
The source reads `point.x` / `point.y` from its input (at the call site in
`_generate_single_aggregate` the inputs are freshly wrapped `APoint` objects,
so these reads succeed) and appends plain `(x, y)` **tuples** to the result
list — the output elements are tuples, not `APoint`s. -/
def adjustPointsToBoundary (points : List Pt) (minDistance : ℚ) (bmin bmax : Pt) : List Pt :=
  points.map fun p =>
    (clip p.1 (bmin.1 + minDistance) (bmax.1 - minDistance),
     clip p.2 (bmin.2 + minDistance) (bmax.2 - minDistance))

/-- `generator.calculate_porosity` (`core/generator.py` lines 720-730). -/
def calculatePorosity (regionArea totalArea : ℚ) : ℚ :=
  if regionArea ≤ 0 ∨ totalArea ≤ 0 then 0
  else
    let porosity := 1 - totalArea / regionArea
    max 0 (min 1 porosity) * 100

/-! ## Boundary adjustment (C7)

The boundary-adjustment block of `_generate_single_aggregate`
(`core/generator.py` lines 567-578).  Inputs are the candidate's center
`(x, y)`, its bounding-circle radius `actual_radius`, its outline `points`,
the region corners and `min_distance`.  The block is dynamically typed in
the source: line 576 wraps the translated points as `pyautocad.APoint`
objects (which carry `x`/`y` attributes) before passing them to
`adjust_points_to_boundary`, but that function returns plain `(x, y)`
tuples, and line 578 then hands those tuples to
`calculate_bounding_circle`, whose body reads `p.x`/`p.y` — an
`AttributeError` on a tuple.  `PyPoint` records which of the two runtime
shapes a point value has, and attribute access returns `Except Unit ℚ`. -/

/-- A Python value used as a point at these call sites: either a
`pyautocad.APoint` object carrying `x`/`y` attributes, or a plain `(x, y)`
tuple, which has no such attributes. -/
inductive PyPoint where
  | apoint (x y : ℚ) : PyPoint
  | tuple (x y : ℚ) : PyPoint

/-- The attribute read `p.x`: succeeds on an `APoint`, raises
`AttributeError` (modelled `Except.error ()`) on a plain tuple. -/
def PyPoint.attrX : PyPoint → Except Unit ℚ
  | .apoint x _ => Except.ok x
  | .tuple _ _ => Except.error ()

/-- The attribute read `p.y`. -/
def PyPoint.attrY : PyPoint → Except Unit ℚ
  | .apoint _ y => Except.ok y
  | .tuple _ _ => Except.error ()

/-- The comprehension `xs = [p.x for p in points]` of
`utils.calculate_bounding_circle` (line 86): the first failing attribute
read aborts it. -/
def attrMapX : List PyPoint → Except Unit (List ℚ)
  | [] => Except.ok []
  | p :: rest =>
      match PyPoint.attrX p, attrMapX rest with
      | Except.ok x, Except.ok xs => Except.ok (x :: xs)
      | Except.error e, _ => Except.error e
      | _, Except.error e => Except.error e

/-- The comprehension `ys = [p.y for p in points]` (line 87). -/
def attrMapY : List PyPoint → Except Unit (List ℚ)
  | [] => Except.ok []
  | p :: rest =>
      match PyPoint.attrY p, attrMapY rest with
      | Except.ok y, Except.ok ys => Except.ok (y :: ys)
      | Except.error e, _ => Except.error e
      | _, Except.error e => Except.error e

/-- The max-radius loop of `utils.calculate_bounding_circle` (lines 93-98),
which reads `point.x`/`point.y` again on every iteration; `math.hypot` is
modelled by the sqrt oracle applied to the exact squared distance. -/
def hypotLoop (sqrtF : ℚ → ℚ) (cx cy : ℚ) : List PyPoint → ℚ → Except Unit ℚ
  | [], m => Except.ok m
  | p :: rest, m =>
      match PyPoint.attrX p, PyPoint.attrY p with
      | Except.ok px, Except.ok py =>
          let d := sqrtF ((px - cx) ^ 2 + (py - cy) ^ 2)
          hypotLoop sqrtF cx cy rest (if d > m then d else m)
      | _, _ => Except.error ()

/-- `utils.calculate_bounding_circle` (lines 73-100) as executed, attribute
errors included: `(None, 0.0)` on an empty list, otherwise the centroid of
the vertices and the largest hypot distance from it.  On a nonempty list of
plain tuples the very first attribute read raises. -/
def calculateBoundingCircle (sqrtF : ℚ → ℚ) (points : List PyPoint) :
    Except Unit (Option Pt × ℚ) :=
  if points.isEmpty then Except.ok (none, 0)
  else
    match attrMapX points, attrMapY points with
    | Except.ok xs, Except.ok ys =>
        let cx := xs.sum / (xs.length : ℚ)
        let cy := ys.sum / (ys.length : ℚ)
        match hypotLoop sqrtF cx cy points 0 with
        | Except.ok r => Except.ok (some (cx, cy), r)
        | Except.error e => Except.error e
    | Except.error e, _ => Except.error e
    | _, Except.error e => Except.error e

/-- The boundary-adjustment block exactly as the code performs it: when the
candidate is near a boundary, move the center, translate every outline point
by the same offset, wrap the points as `APoint`s for
`adjust_points_to_boundary` (so its attribute reads succeed, and it returns
plain tuples), and call `calculate_bounding_circle` on those tuples —
`_, actual_radius = calculate_bounding_circle(points)` at line 578 — to
recompute the radius while keeping the moved center.  The value returned is
`Except.ok` of the `(center, radius, points)` stored in `agg_data`, or
`Except.error ()` when the block raises. -/
def boundaryAdjustBlock (sqrtF : ℚ → ℚ) (center : Pt) (actualRadius : ℚ)
    (points : List Pt) (bmin bmax : Pt) (minDistance : ℚ) :
    Except Unit (Pt × ℚ × List Pt) :=
  if isNearBoundary center actualRadius bmin bmax minDistance then
    let center' := moveTowardBoundary center bmin bmax minDistance
    let moved := points.map fun p => (center'.1 + (p.1 - center.1), center'.2 + (p.2 - center.2))
    let clamped := adjustPointsToBoundary moved minDistance bmin bmax
    match calculateBoundingCircle sqrtF (clamped.map fun q => PyPoint.tuple q.1 q.2) with
    | Except.ok res => Except.ok (center', res.2, clamped)
    | Except.error e => Except.error e
  else Except.ok (center, actualRadius, points)

/-- The `try/except Exception` of `_parallel_generate_attempt`
(`core/generator.py` lines 817-845) as it acts on the block's outcome: any
exception escaping `_generate_single_aggregate` makes the attempt return
`None`, discarding the candidate. -/
def attemptAfterAdjust (r : Except Unit (Pt × ℚ × List Pt)) :
    Option (Pt × ℚ × List Pt) :=
  match r with
  | Except.ok v => some v
  | Except.error _ => none

/-! ## `core/shapes.py` (random outlines)

`math.cos`, `math.sin`, `math.sqrt` and the float value of `math.pi` are
modelled by the oracle parameters `cosF`, `sinF`, `sqrtF`, `piF`; the random
draws of `random.uniform` / `random.gauss` / `random.randint` are explicit
inputs (`angleDraws i` is the i-th angular-step draw, `radiusDraws i` the
i-th per-vertex radius draw, `startAngle` the starting-angle draw). -/

/-- `shapes.calculate_distance` (lines 9-20): Euclidean distance, with
`math.sqrt` as the oracle `sqrtF`. -/
def calculateDistance (sqrtF : ℚ → ℚ) (p q : Pt) : ℚ :=
  sqrtF ((p.1 - q.1) ^ 2 + (p.2 - q.2) ^ 2)

/-- One iteration of the edge loop of `shapes.optimize_polygon_sides`
(lines 41-86), acting on the current (already partially mutated) point
list, exactly as the Python in-place updates do. -/
def optimizeEdge (sqrtF : ℚ → ℚ) (minEdgeLength : ℚ) (sides : ℕ)
    (pts : List Pt) (i : ℕ) : List Pt :=
  let current := pts.getD i (0, 0)
  let next := pts.getD (i + 1) (0, 0)
  let edgeLength := calculateDistance sqrtF current next
  if edgeLength < minEdgeLength then
    let prevPoint := pts.getD ((i + sides - 1) % sides) (0, 0)
    let nextNextPoint := pts.getD ((i + 2) % pts.length) (0, 0)
    let prevVec := (prevPoint.1 - current.1, prevPoint.2 - current.2)
    let nextVec := (nextNextPoint.1 - next.1, nextNextPoint.2 - next.2)
    let prevLength := calculateDistance sqrtF (0, 0) prevVec
    let nextLength := calculateDistance sqrtF (0, 0) nextVec
    let prevUnit := if prevLength > 0 then (prevVec.1 / prevLength, prevVec.2 / prevLength)
      else ((0 : ℚ), (0 : ℚ))
    let nextUnit := if nextLength > 0 then (nextVec.1 / nextLength, nextVec.2 / nextLength)
      else ((0 : ℚ), (0 : ℚ))
    let adjustment := (minEdgeLength - edgeLength) / 2
    let newCurrent := (current.1 - prevUnit.1 * adjustment, current.2 - prevUnit.2 * adjustment)
    let newNext := (next.1 + nextUnit.1 * adjustment, next.2 + nextUnit.2 * adjustment)
    (pts.set i newCurrent).set (i + 1) newNext
  else pts

/-- `shapes.optimize_polygon_sides` (lines 23-88): single pass over the
`sides = len(points) - 1` edges; lists shorter than 4 are returned
unchanged. -/
def optimizePolygonSides (sqrtF : ℚ → ℚ) (points : List Pt) (minEdgeLength : ℚ) : List Pt :=
  if points.length < 4 then points
  else
    let sides := points.length - 1
    (List.range sides).foldl (optimizeEdge sqrtF minEdgeLength sides) points

/-- The vertex loop of `shapes.generate_random_polygon` (lines 145-155):
vertex `i` is placed at the accumulated angle using the clipped i-th
radius draw, then the i-th normalized step is added to the angle. -/
def polygonVertices (cosF sinF : ℚ → ℚ) (center : Pt) (radius : ℚ)
    (radiusDraws : ℕ → ℚ) : List ℚ → ℕ → ℚ → List Pt
  | [], _, _ => []
  | step :: rest, i, angle =>
      let r := clip (radiusDraws i) (3 / 10 * radius) (9 / 5 * radius)
      (center.1 + r * cosF angle, center.2 + r * sinF angle) ::
        polygonVertices cosF sinF center radius radiusDraws rest (i + 1) (angle + step)

/-- `shapes.generate_random_polygon` (lines 91-164).  `none` models the
`ValueError` raised for `sides < 3`.  The angular-step draws are normalized
so that they sum to `2π`; the outline is closed by appending the first
vertex; the optional small-edge pass then runs on the closed list. -/
def generateRandomPolygon (sqrtF cosF sinF : ℚ → ℚ) (piF : ℚ)
    (center : Pt) (radius : ℚ) (sides : ℕ) (irregularity spikiness : ℚ)
    (optimizeSides : Bool) (minEdgeLength : Option ℚ)
    (angleDraws : ℕ → ℚ) (startAngle : ℚ) (radiusDraws : ℕ → ℚ) : Option (List Pt) :=
  if sides < 3 then none
  else
    let _irr := clip irregularity 0 1
    let _spk := clip spikiness 0 1
    let minEdge := minEdgeLength.getD (radius / 10)
    let angleSteps := (List.range sides).map angleDraws
    let totalAngle := angleSteps.sum
    let angleSteps := angleSteps.map fun s => s * (2 * piF / totalAngle)
    let vertices := polygonVertices cosF sinF center radius radiusDraws angleSteps 0 startAngle
    -- `points.append(points[0])`: the vertex list is nonempty here (`sides ≥ 3`),
    -- so its one-element `take` is exactly the repeated first vertex
    let closed := vertices ++ vertices.take 1
    some (if optimizeSides then optimizePolygonSides sqrtF closed minEdge else closed)

/-- `shapes.generate_circle` (lines 166-189): `segments` silently clamped
up to 8; `segments + 1` points evenly spaced by angle. -/
def generateCircle (cosF sinF : ℚ → ℚ) (piF : ℚ)
    (center : Pt) (radius : ℚ) (segments : ℕ) : List Pt :=
  let segs := if segments < 8 then 8 else segments
  (List.range (segs + 1)).map fun (i : ℕ) =>
    (center.1 + radius * cosF (2 * piF * (i : ℚ) / (segs : ℚ)),
     center.2 + radius * sinF (2 * piF * (i : ℚ) / (segs : ℚ)))

/-- `shapes.generate_ellipse` (lines 191-224): parametric ellipse points
rotated by `rotation` and translated by `center`. -/
def generateEllipse (cosF sinF : ℚ → ℚ) (piF : ℚ)
    (center : Pt) (majorAxis minorAxis rotation : ℚ) (segments : ℕ) : List Pt :=
  let segs := if segments < 8 then 8 else segments
  (List.range (segs + 1)).map fun (i : ℕ) =>
    (center.1 + (majorAxis * cosF (2 * piF * (i : ℚ) / (segs : ℚ)) * cosF rotation -
        minorAxis * sinF (2 * piF * (i : ℚ) / (segs : ℚ)) * sinF rotation),
     center.2 + (majorAxis * cosF (2 * piF * (i : ℚ) / (segs : ℚ)) * sinF rotation +
        minorAxis * sinF (2 * piF * (i : ℚ) / (segs : ℚ)) * cosF rotation))

/-! Concrete oracle instances used to evaluate `generate_random_polygon` on
one explicit run.  The four vertex angles occurring in that run are
`0, 1/10, 31/10, 23/5`; `cosCe`/`sinCe` give plausible float-like values at
those angles (the pair at `1/10` lies exactly on the unit circle), `sqrtCe`
gives the value of float `sqrt` at the four squared lengths that occur
(exact at `640400/2563201 = (800/1601)²`, close rational approximations
elsewhere), and `aDCe` lists the four angular-step draws, which lie in the
admissible range `[0, piF]` for `irregularity = 1` and sum to `2·piF` with
`piF = 3`. -/
def sqrtCe : ℚ → ℚ := fun q =>
  if q = 640400 / 2563201 then 800 / 1601
  else if q = 200 then 7071 / 500
  else if q = 1024640000 / 2563201 then 32009 / 1601
  else 20

def cosCe : ℚ → ℚ := fun t =>
  if t = 0 then 1 else if t = 1 / 10 then 1599 / 1601
  else if t = 31 / 10 then -1 else 0

def sinCe : ℚ → ℚ := fun t =>
  if t = 1 / 10 then 80 / 1601
  else if t = 23 / 5 then -1 else 0

def aDCe : ℕ → ℚ := fun i =>
  if i = 0 then 1 / 10 else if i = 1 then 3 else if i = 2 then 3 / 2
  else if i = 3 then 7 / 5 else 0

/-! ## `core/quadtree.py`

`QuadtreeNode` keeps a bounds rectangle, the `(depth, max_depth,
max_objects)` configuration, a list of directly held objects, and either no
children (`is_divided == False`) or exactly four children (after
`_divide`).  The tree is polymorphic in the stored object type; `boundsOf`
models `(obj.get('shapely_obj') or obj.get('shapely_itz')).bounds`, which
the source reads on a dict that always carries a `shapely_obj`. -/

structure QInfo where
  depth : ℕ
  maxDepth : ℕ
  maxObjects : ℕ
  deriving DecidableEq, Repr

inductive QNode (α : Type) where
  | leaf (bounds : Rect) (info : QInfo) (objects : List α)
  | branch (bounds : Rect) (info : QInfo) (objects : List α) (nw ne sw se : QNode α)
  deriving Repr

def QNode.bounds {α : Type} : QNode α → Rect
  | .leaf b _ _ => b
  | .branch b _ _ _ _ _ _ => b

/-- The four quadrant rectangles built by `QuadtreeNode._divide`
(lines 26-43): NW, NE, SW, SE, split at the midpoints. -/
def qChildBounds (b : Rect) : Rect × Rect × Rect × Rect :=
  let midX := (b.minX + b.maxX) / 2
  let midY := (b.minY + b.maxY) / 2
  (⟨b.minX, midY, midX, b.maxY⟩,
   ⟨midX, midY, b.maxX, b.maxY⟩,
   ⟨b.minX, b.minY, midX, midY⟩,
   ⟨midX, b.minY, b.maxX, midY⟩)

/-- `insert` called on one of the four freshly created (empty) children of
a node that has just divided: the bounds check, then the direct append
(`len(objects) == 0 < max_objects`).  The source would divide the fresh
child again and recurse without bound if `max_objects` were 0; the
generator always configures `max_objects ≥ 5`, and this model makes that
degenerate insert fail instead. -/
def qFreshChildInsert {α : Type} (boundsOf : α → Rect) (b : Rect) (info : QInfo)
    (o : α) : QNode α × Bool :=
  if ¬ intersectsBounds (boundsOf o) b then (QNode.leaf b info [], false)
  else if 0 < info.maxObjects then (QNode.leaf b info [o], true)
  else (QNode.leaf b info [], false)

/-- `QuadtreeNode.insert` (lines 45-83).  On an undivided node below
capacity the object is appended directly; at capacity the node divides and
the insert loop runs over all four (fresh) children **without breaking**;
on a divided node the loop recurses into all four children; when no child
reported success the object is kept in the node itself; any object whose
bounds intersect the node's bounds yields `True`. -/
def qInsert {α : Type} (boundsOf : α → Rect) : QNode α → α → QNode α × Bool
  | QNode.leaf b info objs, o =>
      if ¬ intersectsBounds (boundsOf o) b then (QNode.leaf b info objs, false)
      else if objs.length < info.maxObjects then
        (QNode.leaf b info (objs ++ [o]), true)
      else
        let cb := qChildBounds b
        let cinfo : QInfo := ⟨info.depth + 1, info.maxDepth, info.maxObjects⟩
        let rnw := qFreshChildInsert boundsOf cb.1 cinfo o
        let rne := qFreshChildInsert boundsOf cb.2.1 cinfo o
        let rsw := qFreshChildInsert boundsOf cb.2.2.1 cinfo o
        let rse := qFreshChildInsert boundsOf cb.2.2.2 cinfo o
        let inserted := rnw.2 || rne.2 || rsw.2 || rse.2
        if inserted then
          (QNode.branch b info objs rnw.1 rne.1 rsw.1 rse.1, true)
        else
          (QNode.branch b info (objs ++ [o]) rnw.1 rne.1 rsw.1 rse.1, true)
  | QNode.branch b info objs nw ne sw se, o =>
      if ¬ intersectsBounds (boundsOf o) b then
        (QNode.branch b info objs nw ne sw se, false)
      else
        let rnw := qInsert boundsOf nw o
        let rne := qInsert boundsOf ne o
        let rsw := qInsert boundsOf sw o
        let rse := qInsert boundsOf se o
        let inserted := rnw.2 || rne.2 || rsw.2 || rse.2
        if inserted then
          (QNode.branch b info objs rnw.1 rne.1 rsw.1 rse.1, true)
        else
          (QNode.branch b info (objs ++ [o]) rnw.1 rne.1 rsw.1 rse.1, true)

/-- `QuadtreeNode.query_range` (lines 85-114): prune on the node bounds,
collect held objects whose bounds intersect the query bounds, then extend
with all children's results in NW, NE, SW, SE order. -/
def qQuery {α : Type} (boundsOf : α → Rect) : QNode α → Rect → List α
  | QNode.leaf b _ objs, q =>
      if ¬ intersectsBounds q b then []
      else objs.filter fun o => intersectsBounds (boundsOf o) q
  | QNode.branch b _ objs nw ne sw se, q =>
      if ¬ intersectsBounds q b then []
      else
        (objs.filter fun o => intersectsBounds (boundsOf o) q) ++
          qQuery boundsOf nw q ++ qQuery boundsOf ne q ++
          qQuery boundsOf sw q ++ qQuery boundsOf se q

/-- `QuadtreeNode.clear` (lines 140-152): objects cleared, children
dropped, `is_divided` reset. -/
def qClear {α : Type} : QNode α → QNode α
  | QNode.leaf b info _ => QNode.leaf b info []
  | QNode.branch b info _ _ _ _ _ => QNode.leaf b info []

/-- Number of copies of `o` stored anywhere in the subtree. -/
def qCount {α : Type} [DecidableEq α] (o : α) : QNode α → ℕ
  | QNode.leaf _ _ objs => objs.count o
  | QNode.branch _ _ objs nw ne sw se =>
      objs.count o + qCount o nw + qCount o ne + qCount o sw + qCount o se

/-- A committed object as stored in the spatial index during a run, for the
quadtree theorems: an identifier plus its (shapely) bounds. -/
structure Obj where
  oid : ℕ
  bounds : Rect
  deriving DecidableEq, Repr

/-! ## Box predicates used by the spatial-index invariants -/

/-- A well-formed `(min_x, min_y, max_x, max_y)` box. -/
def validRect (b : Rect) : Prop := b.minX ≤ b.maxX ∧ b.minY ≤ b.maxY

/-- `b` lies inside `r`. -/
def subRect (b r : Rect) : Prop :=
  r.minX ≤ b.minX ∧ b.maxX ≤ r.maxX ∧ r.minY ≤ b.minY ∧ b.maxY ≤ r.maxY

/-- All objects stored anywhere in a quadtree subtree, parent lists first. -/
def qObjects {α : Type} : QNode α → List α
  | QNode.leaf _ _ objs => objs
  | QNode.branch _ _ objs nw ne sw se =>
      objs ++ qObjects nw ++ qObjects ne ++ qObjects sw ++ qObjects se

/-- Structural well-formedness of a quadtree relative to the root bounds
`root`: every node's box is valid and contained in `root`, and every object
held by a node intersects that node's box.  This holds for every tree the
source can build (nodes are created from `root` by quadrant subdivision and
objects pass the insert bounds check). -/
def qWF {α : Type} (boundsOf : α → Rect) (root : Rect) : QNode α → Prop
  | QNode.leaf b _ objs =>
      validRect b ∧ subRect b root ∧ ∀ o ∈ objs, intersectsBounds (boundsOf o) b = true
  | QNode.branch b _ objs nw ne sw se =>
      validRect b ∧ subRect b root ∧ (∀ o ∈ objs, intersectsBounds (boundsOf o) b = true) ∧
      qWF boundsOf root nw ∧ qWF boundsOf root ne ∧ qWF boundsOf root sw ∧
      qWF boundsOf root se

/-- Folding a sequence of inserts, keeping the mutated tree (`Quadtree.insert_batch`
does exactly this with the same tree object). -/
def qInsertAll {α : Type} (boundsOf : α → Rect) (t : QNode α) (os : List α) : QNode α :=
  os.foldl (fun t o => (qInsert boundsOf t o).1) t

/-- Insert into a (weakly) key-sorted list, keeping earlier-inserted
elements first among equal keys.  Used to model Python's stable
`sorted(..., key=...)`. -/
def insertSortedBy {α : Type} (key : α → ℚ) (x : α) : List α → List α
  | [] => [x]
  | y :: l => if key x ≤ key y then x :: y :: l else y :: insertSortedBy key x l

/-- Stable sort by a rational key: any stable sorting algorithm (Python's
`sorted` included) produces this list, since a stable sort's output is
determined by the key order and the input order alone. -/
def sortedBy {α : Type} (key : α → ℚ) : List α → List α
  | [] => []
  | x :: xs => insertSortedBy key x (sortedBy key xs)

/-! ## `core/kd_tree.py`

`KDTreeNode` is encoded with two constructors: `leaf` (no children — the
source's `left`/`right` are both `None`, `median` is `None`, the node holds
its objects) and `inner` (both children present after `_split`, `median`
set, the node's object list empty — `_split` always clears it).  The fields
`depth`, `max_objects`, `max_depth` and the cached `bounds` are kept as in
the source.  `boundsOf` models `shapely_obj.bounds`; `centerOf` models
`_get_object_center` (the stored `center` when the dict has one, otherwise
the bounds midpoint). -/

inductive KNode (α : Type) where
  | leaf (depth maxObjects maxDepth : ℕ) (objects : List α) (bounds : Option Rect)
  | inner (depth maxObjects maxDepth : ℕ) (bounds : Option Rect) (median : ℚ)
      (left right : KNode α)
  deriving Repr

/-- The box-union step of `KDTreeNode._calculate_bounds`. -/
def unionRect (a b : Rect) : Rect :=
  ⟨min a.minX b.minX, min a.minY b.minY, max a.maxX b.maxX, max a.maxY b.maxY⟩

/-- `KDTreeNode._calculate_bounds` (lines 35-57): `None` for an empty
object list, otherwise the bounding box of all the objects' bounds. -/
def kCalcBounds {α : Type} (boundsOf : α → Rect) : List α → Option Rect
  | [] => none
  | o :: os => some (os.foldl (fun acc x => unionRect acc (boundsOf x)) (boundsOf o))

/-- The sort key of `KDTreeNode._split`: the object center's coordinate on
the node's axis (`x` at even depth, `y` at odd depth). -/
def kAxisVal {α : Type} (centerOf : α → Pt) (depth : ℕ) (o : α) : ℚ :=
  if depth % 2 = 0 then (centerOf o).1 else (centerOf o).2

/-- `KDTreeNode.__init__` (lines 8-33) together with `_split` (lines 59-81):
compute the bounds, then split when the object count exceeds `max_objects`
and the depth cap allows, sorting the objects stably by the axis
coordinate of their centers, putting `objects[:len//2]` in the left child
and `objects[len//2:]` in the right, with the median element's axis
coordinate as the split value; the children are built by the same
constructor one level deeper. -/
def mkKDNode {α : Type} (boundsOf : α → Rect) (centerOf : α → Pt)
    (objs : List α) (depth maxObjects maxDepth : ℕ) : KNode α :=
  let bounds := kCalcBounds boundsOf objs
  if maxObjects < objs.length ∧ depth < maxDepth then
    let sorted := sortedBy (kAxisVal centerOf depth) objs
    let medianIdx := sorted.length / 2
    let median := match sorted.drop medianIdx with
      | [] => 0
      | m :: _ => kAxisVal centerOf depth m
    KNode.inner depth maxObjects maxDepth bounds median
      (mkKDNode boundsOf centerOf (sorted.take medianIdx) (depth + 1) maxObjects maxDepth)
      (mkKDNode boundsOf centerOf (sorted.drop medianIdx) (depth + 1) maxObjects maxDepth)
  else
    KNode.leaf depth maxObjects maxDepth objs bounds
  termination_by maxDepth - depth
  decreasing_by all_goals omega

/-- `KDTreeNode._split` as called from `insert`: the node at `depth` holding
`objs` (with its just-recomputed `bounds`) becomes an inner node. -/
def kSplit {α : Type} (boundsOf : α → Rect) (centerOf : α → Pt)
    (depth maxObjects maxDepth : ℕ) (objs : List α) (bounds : Option Rect) : KNode α :=
  let sorted := sortedBy (kAxisVal centerOf depth) objs
  let medianIdx := sorted.length / 2
  let median := match sorted.drop medianIdx with
    | [] => 0
    | m :: _ => kAxisVal centerOf depth m
  KNode.inner depth maxObjects maxDepth bounds median
    (mkKDNode boundsOf centerOf (sorted.take medianIdx) (depth + 1) maxObjects maxDepth)
    (mkKDNode boundsOf centerOf (sorted.drop medianIdx) (depth + 1) maxObjects maxDepth)

/-- `KDTreeNode.insert` (lines 105-136): a leaf appends the object,
recomputes its bounds and splits when over capacity (below the depth cap);
an inner node routes to the left child when the object center's axis
coordinate is below the median, otherwise to the right.  There is **no
bounds check**: a leaf insert always succeeds. -/
def kInsert {α : Type} (boundsOf : α → Rect) (centerOf : α → Pt) :
    KNode α → α → KNode α × Bool
  | KNode.leaf depth maxObjects maxDepth objs _, o =>
      let objs' := objs ++ [o]
      let bounds' := kCalcBounds boundsOf objs'
      if maxObjects < objs'.length ∧ depth < maxDepth then
        (kSplit boundsOf centerOf depth maxObjects maxDepth objs' bounds', true)
      else
        (KNode.leaf depth maxObjects maxDepth objs' bounds', true)
  | KNode.inner depth maxObjects maxDepth bounds median l r, o =>
      if kAxisVal centerOf depth o < median then
        let res := kInsert boundsOf centerOf l o
        (KNode.inner depth maxObjects maxDepth bounds median res.1 r, res.2)
      else
        let res := kInsert boundsOf centerOf r o
        (KNode.inner depth maxObjects maxDepth bounds median l res.1, res.2)

/-- `KDTreeNode.query_range` (lines 138-170): prune when the node has no
bounds or they miss the query box; a leaf filters its objects by
bounds-intersection with the query; an inner node concatenates the
children's results. -/
def kQuery {α : Type} (boundsOf : α → Rect) : KNode α → Rect → List α
  | KNode.leaf _ _ _ objs bounds, q =>
      match bounds with
      | none => []
      | some b =>
          if ¬ intersectsBounds b q then []
          else objs.filter fun o => intersectsBounds (boundsOf o) q
  | KNode.inner _ _ _ bounds _ l r, q =>
      match bounds with
      | none => []
      | some b =>
          if ¬ intersectsBounds b q then []
          else kQuery boundsOf l q ++ kQuery boundsOf r q

/-- `KDTreeNode.clear` (lines 193-207): objects cleared, children dropped,
bounds and median reset. -/
def kClear {α : Type} : KNode α → KNode α
  | KNode.leaf depth maxObjects maxDepth _ _ =>
      KNode.leaf depth maxObjects maxDepth [] none
  | KNode.inner depth maxObjects maxDepth _ _ _ _ =>
      KNode.leaf depth maxObjects maxDepth [] none

/-- All objects stored in a k-d subtree. -/
def kObjects {α : Type} : KNode α → List α
  | KNode.leaf _ _ _ objs _ => objs
  | KNode.inner _ _ _ _ _ l r => kObjects l ++ kObjects r

/-- Well-formedness of a k-d tree as the source maintains it: a leaf's
cached bounds are exactly the bounds of its objects; an inner node's cached
bounds are `some` box that contains the bounds of at least one object still
stored in its subtree (the bounds were computed from the pre-split objects,
which `_split` distributed to the children and which are never removed). -/
def kWF {α : Type} (boundsOf : α → Rect) : KNode α → Prop
  | KNode.leaf _ _ _ objs bounds => bounds = kCalcBounds boundsOf objs
  | KNode.inner _ _ _ bounds _ l r =>
      (∃ b, bounds = some b ∧
        ∃ o, o ∈ kObjects l ++ kObjects r ∧ subRect (boundsOf o) b) ∧
      kWF boundsOf l ∧ kWF boundsOf r

/-- Folding a sequence of k-d inserts (`KDTree.insert_batch`). -/
def kInsertAll {α : Type} (boundsOf : α → Rect) (centerOf : α → Pt)
    (t : KNode α) (os : List α) : KNode α :=
  os.foldl (fun t o => (kInsert boundsOf centerOf t o).1) t

/-- `_get_object_center` for an `Obj` without a stored `center`: the bounds
midpoint (`kd_tree.py` lines 83-103). -/
def objCenter (o : Obj) : Pt :=
  ((o.bounds.minX + o.bounds.maxX) / 2, (o.bounds.minY + o.bounds.maxY) / 2)

/-! ## `core/group_manager.py` -/

/-- One grading group, with the fields of the group dicts built by
`GroupManager.set_config` that `select_next_group` reads. -/
structure Group where
  gid : ℕ
  targetArea : ℚ
  generatedArea : ℚ
  count : ℕ
  maxCount : ℕ
  deriving DecidableEq, Repr

/-- `GroupManager.select_next_group` (`core/group_manager.py` lines 68-98).
Both branches sort by `generated_area / target_area if target_area > 0
else 0` — the porosity branch first stores that value in a `progress`
field and sorts on it, the count branch sorts on the lambda directly —
then groups with `count ≥ max_count` are filtered out and the head of the
remaining list (if any) is returned. -/
def selectNextGroup (generationMode : String) (groups : List Group) : Option Group :=
  let candidateGroups :=
    if generationMode = "porosity" then
      sortedBy (fun g => if g.targetArea > 0 then g.generatedArea / g.targetArea else 0) groups
    else
      sortedBy (fun g => if g.targetArea > 0 then g.generatedArea / g.targetArea else 0) groups
  let availableGroups := candidateGroups.filter fun g => g.count < g.maxCount
  availableGroups.head?

/-- The progress ratio named by the specification: `generated_area /
target_area`, taken as 0 when `target_area` is 0 (or negative, matching the
code's `> 0` guard). -/
def progressRatio (g : Group) : ℚ :=
  if g.targetArea > 0 then g.generatedArea / g.targetArea else 0

/-- First element attaining the minimal key, ties broken by list order —
the selection rule as the specification words it. -/
def firstMinBy {α : Type} (key : α → ℚ) : List α → Option α
  | [] => none
  | x :: xs =>
      match firstMinBy key xs with
      | none => some x
      | some b => if key x ≤ key b then some x else some b

/-- The specification's description of `select_next_group`: filter out the
groups whose count reached `max_count`, then return the group with the
lowest progress ratio, ties broken by list order. -/
def specSelectNextGroup (groups : List Group) : Option Group :=
  firstMinBy progressRatio (groups.filter fun g => g.count < g.maxCount)

/-! ## `core/collision.py`

A shapely geometry, as the collision detector reads it, is its bounding box
plus an identifier; `shapely.distance`, which computes the exact minimum
geometric distance between two outlines and may raise on a pathological
pair, is modelled by an oracle `dist : Shape → Shape → Except Unit ℚ`
(error = the Python exception). -/

structure Shape where
  sid : ℕ
  bounds : Rect
  deriving DecidableEq, Repr

/-- A committed aggregate dict `agg_data`, as stored in the spatial index:
its `shapely_obj` and optional `shapely_itz`. -/
structure Agg where
  aid : ℕ
  shape : Shape
  itz : Option Shape
  deriving DecidableEq, Repr

/-- `(obj.get('shapely_obj') or obj.get('shapely_itz')).bounds` on an
`agg_data` dict, which always carries a `shapely_obj`. -/
def aggBounds (a : Agg) : Rect := a.shape.bounds

/-- `Quadtree.query_shapely` (`quadtree.py` lines 207-226): query with the
shape's bounds expanded by `min_distance`. -/
def queryShapely (idx : QNode Agg) (s : Shape) (minDistance : ℚ) : List Agg :=
  qQuery aggBounds idx (expandRect s.bounds minDistance)

/-- The extraction loop of `check_collision_hierarchical` (lines 228-233):
each returned dict contributes its `shapely_obj` and, when present, its
`shapely_itz`. -/
def extractShapes (aggs : List Agg) : List Shape :=
  aggs.flatMap fun a => a.shape :: a.itz.toList

/-- `GPUDistanceCalculator.calculate_distances_gpu` (`collision.py`
lines 29-90): the vectorized bounding-box overlap mask.  The CPU fallback
and the tensor path compute this same predicate per entry (the tensor path
evaluates it in float32; the embedding idealises that to exact arithmetic). -/
def calculateDistancesGpu (newShapeBounds : Rect) (existingBoundsList : List Rect)
    (minDistance : ℚ) : List Bool :=
  existingBoundsList.map fun bounds =>
    ¬ (newShapeBounds.maxX + minDistance < bounds.minX ∨
       newShapeBounds.minX - minDistance > bounds.maxX ∨
       newShapeBounds.maxY + minDistance < bounds.minY ∨
       newShapeBounds.minY - minDistance > bounds.maxY)

/-- The expanded bounding box of step 2 of `check_collision_hierarchical`
(lines 239-254): the candidate's bounds expanded by `min_distance`,
unioned with the ITZ's expanded bounds when an ITZ exists. -/
def expandedBBoxWithItz (newShape : Shape) (newItzShape : Option Shape)
    (minDistance : ℚ) : Rect :=
  let e := expandRect newShape.bounds minDistance
  match newItzShape with
  | none => e
  | some itz =>
      ⟨min e.minX (itz.bounds.minX - minDistance),
       min e.minY (itz.bounds.minY - minDistance),
       max e.maxX (itz.bounds.maxX + minDistance),
       max e.maxY (itz.bounds.maxY + minDistance)⟩

/-- The GPU-path pre-filter of `check_collision_hierarchical`
(lines 258-268): the batch mask is computed with `min_distance = 0.0` on
the already-expanded box, and the shapes at `True` positions are kept, in
order. -/
def possibleCollidersGpu (expandedBBox : Rect) (shapes : List Shape) : List Shape :=
  ((shapes.zip (calculateDistancesGpu expandedBBox (shapes.map (·.bounds)) 0)).filter
    (·.2)).map (·.1)

/-- The CPU-path pre-filter of `check_collision_hierarchical`
(lines 269-277): the per-pair bounding-box separating-axis test. -/
def possibleCollidersCpu (expandedBBox : Rect) (shapes : List Shape) : List Shape :=
  shapes.filter fun s =>
    ¬ (expandedBBox.maxX < s.bounds.minX ∨ expandedBBox.minX > s.bounds.maxX ∨
       expandedBBox.maxY < s.bounds.minY ∨ expandedBBox.minY > s.bounds.maxY)

/-- The `try`-block body of the exact pass (lines 281-285): candidate
distance first, then the ITZ distance when the candidate one was not
already below `min_distance`; an `Except.error` is the Python exception
propagating out of the block. -/
def pairCheck (dist : Shape → Shape → Except Unit ℚ) (newShape : Shape)
    (newItzShape : Option Shape) (minDistance : ℚ) (s : Shape) : Except Unit Bool :=
  match dist newShape s with
  | Except.error e => Except.error e
  | Except.ok d1 =>
      if d1 < minDistance then Except.ok true
      else
        match newItzShape with
        | none => Except.ok false
        | some itz =>
            match dist itz s with
            | Except.error e => Except.error e
            | Except.ok d2 => Except.ok (d2 < minDistance)

/-- The exact pass of `check_collision_hierarchical` (lines 279-290): each
surviving pair runs the `try` block; an exception is caught and the loop
continues with the next pair; the first `True` short-circuits. -/
def exactPass (dist : Shape → Shape → Except Unit ℚ) (newShape : Shape)
    (newItzShape : Option Shape) (minDistance : ℚ) : List Shape → Bool
  | [] => false
  | s :: rest =>
      match pairCheck dist newShape newItzShape minDistance s with
      | Except.error _ => exactPass dist newShape newItzShape minDistance rest
      | Except.ok true => true
      | Except.ok false => exactPass dist newShape newItzShape minDistance rest

/-- A pair's contribution as a total Boolean: `false` when the distance
computation raised. -/
def pairCollides (dist : Shape → Shape → Except Unit ℚ) (newShape : Shape)
    (newItzShape : Option Shape) (minDistance : ℚ) (s : Shape) : Bool :=
  match pairCheck dist newShape newItzShape minDistance s with
  | Except.ok b => b
  | Except.error _ => false

/-- `check_collision_hierarchical` (`collision.py` lines 202-290): spatial
prune (keeping the full list when the index query returns nothing), then
the bounding-box pre-filter (batch when `use_gpu and cuda_available`,
per-pair otherwise), then the exact-distance pass. -/
def checkCollisionHierarchical (dist : Shape → Shape → Except Unit ℚ)
    (newShape : Shape) (newItzShape : Option Shape) (existingShapesAndItzs : List Shape)
    (minDistance : ℚ) (quadtree : Option (QNode Agg)) (useGpu cudaAvailable : Bool) : Bool :=
  let existing :=
    match quadtree with
    | none => existingShapesAndItzs
    | some idx =>
        let potentialShapes := extractShapes (queryShapely idx newShape minDistance)
        if potentialShapes ≠ [] then potentialShapes else existingShapesAndItzs
  let expandedBBox := expandedBBoxWithItz newShape newItzShape minDistance
  let possibleColliders :=
    if useGpu = true ∧ cudaAvailable = true then possibleCollidersGpu expandedBBox existing
    else possibleCollidersCpu expandedBBox existing
  exactPass dist newShape newItzShape minDistance possibleColliders

/-! ## `core/generator.py` — the generation loop

The loop state and transitions of `generate_aggregates_in_region`
(lines 291-394), with the parallel candidate rounds abstracted into a
per-round outcome: `some area` when some attempt produced a valid,
re-check-passing aggregate of that area for the chosen group, `none` when
the round found no valid aggregate.  The dynamic parallelism bookkeeping
(lines 313-344, 388-394) does not feed any exit condition and is omitted;
`total_attempts` (reset on success, incremented on failure) is kept. -/

/-- `_check_exit_conditions` (`generator.py` lines 488-508).  Note the
third condition compares `len(self.generated_aggregates)` — the number of
**committed** aggregates — against `max_attempts * sum(max_count)`. -/
def checkExitConditions (generationMode : String) (groups : List Group)
    (totalArea : ℚ) (committedCount : ℕ) (targetTotalArea : ℚ) (maxAttempts : ℕ) : Bool :=
  let allGroupsSatisfied := groups.all fun g => g.targetArea ≤ g.generatedArea
  if allGroupsSatisfied ∧ generationMode ≠ "porosity" then true
  else if generationMode = "porosity" ∧ targetTotalArea ≤ totalArea then true
  else
    let maxTotalAttempts := maxAttempts * (groups.map (fun g => g.maxCount)).sum
    maxTotalAttempts ≤ committedCount

/-- The group-stats update of
`_add_aggregate_to_spatial_index_and_collections` (lines 685-693): the
first group with the matching id gets the area and count increments
(`break` after the first match). -/
def updateGroupStats : List Group → ℕ → ℚ → List Group
  | [], _, _ => []
  | g :: rest, gid, area =>
      if g.gid = gid then
        { g with generatedArea := g.generatedArea + area, count := g.count + 1 } :: rest
      else g :: updateGroupStats rest gid area

/-- The loop state: group stats, `total_area`, `len(generated_aggregates)`,
and the consecutive-failure counter `total_attempts`; `running = false`
once one of the loop's `break`s has executed. -/
structure LoopState where
  groups : List Group
  totalArea : ℚ
  committedCount : ℕ
  totalAttempts : ℕ
  running : Bool
  deriving Repr

/-- One iteration of the `while True` loop (lines 291-394), with
cancellation off: check the exit conditions, pick the next group (stopping
when none is eligible), then either commit the round's winning aggregate
(updating totals and resetting `total_attempts`) or record a failed round. -/
def loopStep (generationMode : String) (targetTotalArea : ℚ) (maxAttempts : ℕ)
    (s : LoopState) (outcome : Option ℚ) : LoopState :=
  if s.running = false then s
  else if checkExitConditions generationMode s.groups s.totalArea s.committedCount
      targetTotalArea maxAttempts then
    { s with running := false }
  else
    match selectNextGroup generationMode s.groups with
    | none => { s with running := false }
    | some chosenGroup =>
        match outcome with
        | some area =>
            { s with
              groups := updateGroupStats s.groups chosenGroup.gid area
              totalArea := s.totalArea + area
              committedCount := s.committedCount + 1
              totalAttempts := 0 }
        | none => { s with totalAttempts := s.totalAttempts + 1 }

/-- `n` iterations of the loop, with round `i`'s outcome drawn from
`rounds i`. -/
def loopRun (generationMode : String) (targetTotalArea : ℚ) (maxAttempts : ℕ)
    (rounds : ℕ → Option ℚ) (s0 : LoopState) : ℕ → LoopState
  | 0 => s0
  | n + 1 =>
      loopStep generationMode targetTotalArea maxAttempts
        (loopRun generationMode targetTotalArea maxAttempts rounds s0 n) (rounds n)

/-! ## `core/generator.py` — the commit path (C1)

The committed-state fragment of a run: the result collection
`generated_aggregates`, the concatenation of the groups' `shapes_and_itz`
lists, and the spatial index.  A candidate is committed only after the
mandatory re-check
(`check_collision_hierarchical(result['shapely_obj'], result['shapely_itz'],
all_existing_objects, min_distance, self.spatial_index, self.use_gpu)`,
`generator.py` lines 350-366) reports no collision; the commit then appends
the shape (and its ITZ, when present) to `shapes_and_itz`, inserts the
`agg_data` dict into the spatial index, and appends it to
`generated_aggregates` (lines 677-700). -/

structure RunState where
  committed : List Agg
  existing : List Shape
  index : QNode Agg
  deriving Repr

/-- One candidate arriving at the re-check-and-commit point of the loop. -/
def commitStep (dist : Shape → Shape → Except Unit ℚ) (minDistance : ℚ)
    (useGpu cudaAvailable : Bool) (s : RunState) (cand : Agg) : RunState :=
  if checkCollisionHierarchical dist cand.shape cand.itz s.existing minDistance
      (some s.index) useGpu cudaAvailable then s
  else
    { committed := s.committed ++ [cand]
      existing := s.existing ++ (cand.shape :: cand.itz.toList)
      index := (qInsert aggBounds s.index cand).1 }

/-- A sequence of candidates reaching the commit point in order. -/
def runCommits (dist : Shape → Shape → Except Unit ℚ) (minDistance : ℚ)
    (useGpu cudaAvailable : Bool) (s0 : RunState) (cands : List Agg) : RunState :=
  cands.foldl (commitStep dist minDistance useGpu cudaAvailable) s0

/-- The distance oracle of the C1 run: all the shapes involved are
axis-aligned rectangles whose pairwise configurations are axis-separated,
so the exact outline distance equals the box distance; the only pair whose
distance the run actually computes is shape 4 against shape 3 (diagonal
separation, true distance `√7.22 ≈ 2.687`), for which the oracle returns
the float-accurate value `2687/1000`. -/
def distCe : Shape → Shape → Except Unit ℚ := fun s1 s2 =>
  Except.ok (if s1.sid = 4 ∧ s2.sid = 3 then 2687 / 1000 else 1000)

/-- The single group of the C2 non-termination run: positive target area,
no progress yet, `max_count = 5`. -/
def c2Group : Group := ⟨1, 100, 0, 0, 5⟩

/-- Initial loop state of the C2 run. -/
def c2State : LoopState := ⟨[c2Group], 0, 0, 0, true⟩

/-- The three aggregates of the C1 run (axis-aligned rectangles, region
`(-10,-10,20,20)`, `min_distance = 2`).  Aggregate 1 has an ITZ of
thickness 2: its buffered outline's bounds are its own bounds expanded by
2, and in this axis-separated configuration the buffered outline's minimum
distance to aggregate 3's outline is realised on the straight left edge of
the buffer, so it equals the box distance. -/
def aggACe : Agg := ⟨1, ⟨1, ⟨0, 0, 2, 10⟩⟩, some ⟨2, ⟨-2, -2, 4, 12⟩⟩⟩

def aggCCe : Agg := ⟨2, ⟨3, ⟨89 / 10, 119 / 10, 10, 13⟩⟩, none⟩

def aggBCe : Agg := ⟨3, ⟨4, ⟨5, 0, 7, 10⟩⟩, none⟩

/-- Fresh run state of the C1 run: empty collections and a fresh quadtree
over the region, `max_objects = 5` (the generator configures at least 5). -/
def runStateCe : RunState := ⟨[], [], QNode.leaf ⟨-10, -10, 20, 20⟩ ⟨0, 5, 5⟩ []⟩

end RandomCAD

namespace RandomCAD

/-! ### Helper lemmas about outlines -/

theorem polygonVertices_length (cosF sinF : ℚ → ℚ) (center : Pt) (radius : ℚ)
    (radiusDraws : ℕ → ℚ) (steps : List ℚ) (i : ℕ) (angle : ℚ) :
    (polygonVertices cosF sinF center radius radiusDraws steps i angle).length =
      steps.length := by
  induction steps generalizing i angle with
  | nil => simp [polygonVertices]
  | cons s rest ih => simp [polygonVertices, ih]

theorem optimizeEdge_length (sqrtF : ℚ → ℚ) (minEdgeLength : ℚ) (sides : ℕ)
    (pts : List Pt) (i : ℕ) :
    (optimizeEdge sqrtF minEdgeLength sides pts i).length = pts.length := by
  unfold optimizeEdge
  simp only []
  split <;> simp

theorem optimizePolygonSides_length (sqrtF : ℚ → ℚ) (points : List Pt) (minEdgeLength : ℚ) :
    (optimizePolygonSides sqrtF points minEdgeLength).length = points.length := by
  unfold optimizePolygonSides
  split
  · rfl
  · have h : ∀ (l : List ℕ) (pts : List Pt),
        ((l.foldl (optimizeEdge sqrtF minEdgeLength (points.length - 1)) pts)).length =
          pts.length := by
      intro l
      induction l with
      | nil => intro pts; rfl
      | cons j rest ih =>
          intro pts
          simp only [List.foldl_cons, ih, optimizeEdge_length]
    exact h _ _

theorem mapRange_head_last (f : ℕ → Pt) (n : ℕ) :
    ((List.range (n + 1)).map f).head? = some (f 0) ∧
    ((List.range (n + 1)).map f).getLast? = some (f n) := by
  constructor
  · have : n + 1 = Nat.succ n := rfl
    simp [List.range_succ_eq_map]
  · rw [List.range_succ, List.map_append]
    simp

/-! ### Quadtree insert lemmas -/

theorem qInsert_snd {α : Type} (boundsOf : α → Rect) (t : QNode α) (o : α) :
    (qInsert boundsOf t o).2 = intersectsBounds (boundsOf o) t.bounds := by
  cases t with
  | leaf b info objs =>
      by_cases h : intersectsBounds (boundsOf o) b = true
      · simp only [qInsert, QNode.bounds, h, not_true_eq_false, if_false]
        split
        · rfl
        · split <;> rfl
      · simp only [qInsert, QNode.bounds]
        rw [if_pos (by simpa using h)]
        simp [h]
  | branch b info objs nw ne sw se =>
      by_cases h : intersectsBounds (boundsOf o) b = true
      · simp only [qInsert, QNode.bounds, h, not_true_eq_false, if_false]
        split <;> rfl
      · simp only [qInsert, QNode.bounds]
        rw [if_pos (by simpa using h)]
        simp [h]

theorem qInsert_fail_unchanged {α : Type} (boundsOf : α → Rect) (t : QNode α) (o : α)
    (h : (qInsert boundsOf t o).2 = false) : (qInsert boundsOf t o).1 = t := by
  have hb : ¬ intersectsBounds (boundsOf o) t.bounds = true := by
    rw [← qInsert_snd boundsOf t o, h]; simp
  cases t with
  | leaf b info objs =>
      simp only [qInsert]
      rw [if_pos (by simpa using hb)]
  | branch b info objs nw ne sw se =>
      simp only [qInsert]
      rw [if_pos (by simpa using hb)]

theorem qInsert_bounds {α : Type} (boundsOf : α → Rect) (t : QNode α) (o : α) :
    ((qInsert boundsOf t o).1).bounds = t.bounds := by
  cases t with
  | leaf b info objs =>
      simp only [qInsert]
      split
      · rfl
      · split
        · rfl
        · split <;> rfl
  | branch b info objs nw ne sw se =>
      simp only [qInsert]
      split
      · rfl
      · split <;> rfl

theorem qCount_qFreshChildInsert {α : Type} [DecidableEq α] (boundsOf : α → Rect)
    (b : Rect) (info : QInfo) (o : α) :
    qCount o (qFreshChildInsert boundsOf b info o).1 =
      (qFreshChildInsert boundsOf b info o).2.toNat := by
  unfold qFreshChildInsert
  split
  · simp [qCount]
  · split <;> simp [qCount]

theorem or4_toNat {a b c d : Bool} (h : (a || b || c || d) = true) :
    1 ≤ a.toNat + b.toNat + c.toNat + d.toNat := by
  cases a <;> cases b <;> cases c <;> cases d <;> simp_all

theorem or4_false {a b c d : Bool} (h : ¬ ((a || b || c || d) = true)) :
    a = false ∧ b = false ∧ c = false ∧ d = false := by
  cases a <;> cases b <;> cases c <;> cases d <;> simp_all

theorem qCount_qInsert_self {α : Type} [DecidableEq α] (boundsOf : α → Rect)
    (t : QNode α) (o : α) :
    qCount o t + ((qInsert boundsOf t o).2).toNat ≤ qCount o (qInsert boundsOf t o).1 := by
  induction t with
  | leaf b info objs =>
      by_cases h : intersectsBounds (boundsOf o) b = true
      · simp only [qInsert, h, not_true_eq_false, if_false]
        split
        · simp [qCount, List.count_append]
        · have c1 := qCount_qFreshChildInsert boundsOf (qChildBounds b).1
            ⟨info.depth + 1, info.maxDepth, info.maxObjects⟩ o
          have c2 := qCount_qFreshChildInsert boundsOf (qChildBounds b).2.1
            ⟨info.depth + 1, info.maxDepth, info.maxObjects⟩ o
          have c3 := qCount_qFreshChildInsert boundsOf (qChildBounds b).2.2.1
            ⟨info.depth + 1, info.maxDepth, info.maxObjects⟩ o
          have c4 := qCount_qFreshChildInsert boundsOf (qChildBounds b).2.2.2
            ⟨info.depth + 1, info.maxDepth, info.maxObjects⟩ o
          split
          · rename_i hins
            have hsum := or4_toNat hins
            simp only [qCount, c1, c2, c3, c4, Bool.toNat_true]
            omega
          · rename_i hins
            obtain ⟨f1, f2, f3, f4⟩ := or4_false hins
            simp only [qCount, c1, c2, c3, c4, f1, f2, f3, f4, Bool.toNat_false,
              Bool.toNat_true, List.count_append]
            simp
      · rw [qInsert_fail_unchanged boundsOf _ o
            (by rw [qInsert_snd]; simpa using h)]
        rw [qInsert_snd]
        simp only [QNode.bounds]
        rw [Bool.not_eq_true] at h
        rw [h]
        simp
  | branch b info objs nw ne sw se ihnw ihne ihsw ihse =>
      by_cases h : intersectsBounds (boundsOf o) b = true
      · simp only [qInsert, h, not_true_eq_false, if_false]
        split
        · rename_i hins
          have hsum := or4_toNat hins
          simp only [qCount, Bool.toNat_true]
          omega
        · rename_i hins
          obtain ⟨f1, f2, f3, f4⟩ := or4_false hins
          rw [qInsert_fail_unchanged boundsOf nw o f1, qInsert_fail_unchanged boundsOf ne o f2,
            qInsert_fail_unchanged boundsOf sw o f3, qInsert_fail_unchanged boundsOf se o f4]
          simp only [qCount, Bool.toNat_true, List.count_append]
          simp
          omega
      · rw [qInsert_fail_unchanged boundsOf _ o
            (by rw [qInsert_snd]; simpa using h)]
        rw [qInsert_snd]
        simp only [QNode.bounds]
        rw [Bool.not_eq_true] at h
        rw [h]
        simp

/-! ### C4 -/

/-- C4 counterexample: a quadtree node with bounds `(0,0,4,4)` and
`max_objects = 1` holding one object; inserting an object with bounds
`(1,1,3,3)` (which straddles both split lines) makes the node divide and
stores **four** copies of the object, one in every child — not exactly one,
and not retained by the parent. -/
theorem quadtree_insert_duplicates_across_children :
    (qInsert Obj.bounds
      (qInsert Obj.bounds (QNode.leaf ⟨0, 0, 4, 4⟩ ⟨0, 5, 1⟩ []) ⟨1, ⟨0, 0, 1, 1⟩⟩).1
      ⟨2, ⟨1, 1, 3, 3⟩⟩).2 = true ∧
    qCount (⟨2, ⟨1, 1, 3, 3⟩⟩ : Obj)
      (qInsert Obj.bounds
        (qInsert Obj.bounds (QNode.leaf ⟨0, 0, 4, 4⟩ ⟨0, 5, 1⟩ []) ⟨1, ⟨0, 0, 1, 1⟩⟩).1
        ⟨2, ⟨1, 1, 3, 3⟩⟩).1 = 4 := by
  constructor <;>
    norm_num [qInsert, qFreshChildInsert, qChildBounds, intersectsBounds, qCount,
      List.count_cons, List.count_nil]

/-- C4 (amended): a successfully inserted object is stored **at least** once
— not exactly once.  The insert succeeds exactly when the object's bounds
intersect the node's bounds; a failed insert leaves the tree unchanged; and
on a divided node the insert recurses into **all four** children, so the
object is added to every child whose bounds it intersects (an object
straddling a split line is duplicated into several children), and it is
appended to the parent's own list only when it intersects no child. -/
theorem qInsert_amended {α : Type} [DecidableEq α] (boundsOf : α → Rect) (t : QNode α)
    (o : α) (b : Rect) (info : QInfo) (objs : List α) (nw ne sw se : QNode α)
    (hint : intersectsBounds (boundsOf o) b = true) :
    ((qInsert boundsOf t o).2 = intersectsBounds (boundsOf o) t.bounds) ∧
    ((qInsert boundsOf t o).2 = true →
      qCount o t + 1 ≤ qCount o (qInsert boundsOf t o).1) ∧
    ((qInsert boundsOf t o).2 = false → (qInsert boundsOf t o).1 = t) ∧
    (qInsert boundsOf (QNode.branch b info objs nw ne sw se) o =
      (QNode.branch b info
        (if (intersectsBounds (boundsOf o) nw.bounds || intersectsBounds (boundsOf o) ne.bounds
            || intersectsBounds (boundsOf o) sw.bounds
            || intersectsBounds (boundsOf o) se.bounds) = true
         then objs else objs ++ [o])
        (qInsert boundsOf nw o).1 (qInsert boundsOf ne o).1
        (qInsert boundsOf sw o).1 (qInsert boundsOf se o).1, true)) := by
  refine ⟨qInsert_snd boundsOf t o, ?_, qInsert_fail_unchanged boundsOf t o, ?_⟩
  · intro h
    have hc := qCount_qInsert_self boundsOf t o
    rw [h] at hc
    simpa using hc
  · simp only [qInsert, hint, not_true_eq_false, if_false]
    rw [qInsert_snd boundsOf nw o, qInsert_snd boundsOf ne o,
      qInsert_snd boundsOf sw o, qInsert_snd boundsOf se o]
    by_cases hc : (intersectsBounds (boundsOf o) nw.bounds
        || intersectsBounds (boundsOf o) ne.bounds
        || intersectsBounds (boundsOf o) sw.bounds
        || intersectsBounds (boundsOf o) se.bounds) = true
    · simp [hc]
    · simp [hc]

/-- Witness for `qInsert_amended`: the at-least-once conclusion evaluated on
the full node of the counterexample configuration. -/
theorem qInsert_amended_witness :
    qCount (⟨2, ⟨1, 1, 3, 3⟩⟩ : Obj)
        (QNode.leaf (⟨0, 0, 4, 4⟩ : Rect) ⟨0, 5, 1⟩ [⟨1, ⟨0, 0, 1, 1⟩⟩]) + 1 ≤
      qCount (⟨2, ⟨1, 1, 3, 3⟩⟩ : Obj)
        (qInsert Obj.bounds (QNode.leaf ⟨0, 0, 4, 4⟩ ⟨0, 5, 1⟩ [⟨1, ⟨0, 0, 1, 1⟩⟩])
          ⟨2, ⟨1, 1, 3, 3⟩⟩).1 :=
  (qInsert_amended Obj.bounds
      (QNode.leaf ⟨0, 0, 4, 4⟩ ⟨0, 5, 1⟩ [⟨1, ⟨0, 0, 1, 1⟩⟩]) ⟨2, ⟨1, 1, 3, 3⟩⟩
      ⟨0, 0, 4, 4⟩ ⟨0, 5, 1⟩ [] (QNode.leaf ⟨0, 2, 2, 4⟩ ⟨1, 5, 1⟩ [])
      (QNode.leaf ⟨2, 2, 4, 4⟩ ⟨1, 5, 1⟩ []) (QNode.leaf ⟨0, 0, 2, 2⟩ ⟨1, 5, 1⟩ [])
      (QNode.leaf ⟨2, 0, 4, 2⟩ ⟨1, 5, 1⟩ [])
      (by norm_num [intersectsBounds])).2.1
    (by rw [qInsert_snd]; norm_num [intersectsBounds, QNode.bounds])

/-! ### Box lemmas -/

theorem intersectsBounds_iff (b1 b2 : Rect) :
    intersectsBounds b1 b2 = true ↔
      b2.minX ≤ b1.maxX ∧ b1.minX ≤ b2.maxX ∧ b2.minY ≤ b1.maxY ∧ b1.minY ≤ b2.maxY := by
  simp [intersectsBounds, not_or, not_lt]

theorem subRect_refl (b : Rect) : subRect b b := by
  simp [subRect]

theorem subRect_trans {a b c : Rect} (h1 : subRect a b) (h2 : subRect b c) : subRect a c := by
  obtain ⟨x1, x2, x3, x4⟩ := h1
  obtain ⟨y1, y2, y3, y4⟩ := h2
  exact ⟨le_trans y1 x1, le_trans x2 y2, le_trans y3 x3, le_trans x4 y4⟩

/-- A box intersecting `b` also intersects any box containing `b`. -/
theorem intersects_of_sub {x b r : Rect} (h : intersectsBounds x b = true)
    (hs : subRect b r) : intersectsBounds x r = true := by
  rw [intersectsBounds_iff] at h ⊢
  obtain ⟨h1, h2, h3, h4⟩ := h
  obtain ⟨s1, s2, s3, s4⟩ := hs
  exact ⟨le_trans s1 h1, le_trans h2 s2, le_trans s3 h3, le_trans h4 s4⟩

/-- A box containing `x` intersects anything `x` intersects. -/
theorem intersects_of_contains {x b t : Rect} (hs : subRect x b)
    (h : intersectsBounds x t = true) : intersectsBounds b t = true := by
  rw [intersectsBounds_iff] at h ⊢
  obtain ⟨h1, h2, h3, h4⟩ := h
  obtain ⟨s1, s2, s3, s4⟩ := hs
  exact ⟨le_trans h1 s2, le_trans s1 h2, le_trans h3 s4, le_trans s3 h4⟩

/-- A valid box inside `r` intersects `r` (the query-prune check passes for
every node when querying with the root bounds). -/
theorem intersects_root_of_sub {b r : Rect} (hv : validRect b) (hs : subRect b r) :
    intersectsBounds r b = true := by
  rw [intersectsBounds_iff]
  obtain ⟨v1, v2⟩ := hv
  obtain ⟨s1, s2, s3, s4⟩ := hs
  exact ⟨le_trans v1 s2, le_trans s1 v1, le_trans v2 s4, le_trans s3 v2⟩

/-- The four quadrants of a valid box are valid sub-boxes. -/
theorem qChildBounds_wf (b : Rect) (hv : validRect b) :
    (validRect (qChildBounds b).1 ∧ subRect (qChildBounds b).1 b) ∧
    (validRect (qChildBounds b).2.1 ∧ subRect (qChildBounds b).2.1 b) ∧
    (validRect (qChildBounds b).2.2.1 ∧ subRect (qChildBounds b).2.2.1 b) ∧
    (validRect (qChildBounds b).2.2.2 ∧ subRect (qChildBounds b).2.2.2 b) := by
  obtain ⟨v1, v2⟩ := hv
  simp only [qChildBounds, validRect, subRect]
  refine ⟨⟨⟨?_, ?_⟩, ?_, ?_, ?_, ?_⟩, ⟨⟨?_, ?_⟩, ?_, ?_, ?_, ?_⟩,
    ⟨⟨?_, ?_⟩, ?_, ?_, ?_, ?_⟩, ⟨⟨?_, ?_⟩, ?_, ?_, ?_, ?_⟩⟩ <;> linarith

/-! ### Quadtree well-formedness, counting and completeness -/

theorem qWF_qFreshChildInsert {α : Type} (boundsOf : α → Rect) (root cb : Rect)
    (info : QInfo) (o : α) (hv : validRect cb) (hs : subRect cb root) :
    qWF boundsOf root (qFreshChildInsert boundsOf cb info o).1 := by
  unfold qFreshChildInsert
  split
  · exact ⟨hv, hs, by simp⟩
  · rename_i h
    rw [not_not] at h
    split
    · refine ⟨hv, hs, ?_⟩
      intro x hx
      rw [List.mem_singleton] at hx
      rw [hx]
      exact h
    · exact ⟨hv, hs, by simp⟩

theorem qWF_qInsert {α : Type} (boundsOf : α → Rect) (root : Rect) (t : QNode α) (o : α)
    (hwf : qWF boundsOf root t) : qWF boundsOf root (qInsert boundsOf t o).1 := by
  induction t with
  | leaf b info objs =>
      obtain ⟨hv, hs, hobjs⟩ := hwf
      by_cases h : intersectsBounds (boundsOf o) b = true
      · simp only [qInsert, h, not_true_eq_false, if_false]
        have hcb := qChildBounds_wf b hv
        split
        · refine ⟨hv, hs, ?_⟩
          intro x hx
          rcases List.mem_append.mp hx with hx | hx
          · exact hobjs x hx
          · rw [List.mem_singleton] at hx; rw [hx]; exact h
        · have w1 := qWF_qFreshChildInsert boundsOf root (qChildBounds b).1
            ⟨info.depth + 1, info.maxDepth, info.maxObjects⟩ o hcb.1.1
            (subRect_trans hcb.1.2 hs)
          have w2 := qWF_qFreshChildInsert boundsOf root (qChildBounds b).2.1
            ⟨info.depth + 1, info.maxDepth, info.maxObjects⟩ o hcb.2.1.1
            (subRect_trans hcb.2.1.2 hs)
          have w3 := qWF_qFreshChildInsert boundsOf root (qChildBounds b).2.2.1
            ⟨info.depth + 1, info.maxDepth, info.maxObjects⟩ o hcb.2.2.1.1
            (subRect_trans hcb.2.2.1.2 hs)
          have w4 := qWF_qFreshChildInsert boundsOf root (qChildBounds b).2.2.2
            ⟨info.depth + 1, info.maxDepth, info.maxObjects⟩ o hcb.2.2.2.1
            (subRect_trans hcb.2.2.2.2 hs)
          split
          · exact ⟨hv, hs, hobjs, w1, w2, w3, w4⟩
          · refine ⟨hv, hs, ?_, w1, w2, w3, w4⟩
            intro x hx
            rcases List.mem_append.mp hx with hx | hx
            · exact hobjs x hx
            · rw [List.mem_singleton] at hx; rw [hx]; exact h
      · rw [qInsert_fail_unchanged boundsOf _ o (by rw [qInsert_snd]; simpa using h)]
        exact ⟨hv, hs, hobjs⟩
  | branch b info objs nw ne sw se ihnw ihne ihsw ihse =>
      obtain ⟨hv, hs, hobjs, wnw, wne, wsw, wse⟩ := hwf
      by_cases h : intersectsBounds (boundsOf o) b = true
      · simp only [qInsert, h, not_true_eq_false, if_false]
        split
        · exact ⟨hv, hs, hobjs, ihnw wnw, ihne wne, ihsw wsw, ihse wse⟩
        · refine ⟨hv, hs, ?_, ihnw wnw, ihne wne, ihsw wsw, ihse wse⟩
          intro x hx
          rcases List.mem_append.mp hx with hx | hx
          · exact hobjs x hx
          · rw [List.mem_singleton] at hx; rw [hx]; exact h
      · rw [qInsert_fail_unchanged boundsOf _ o (by rw [qInsert_snd]; simpa using h)]
        exact ⟨hv, hs, hobjs, wnw, wne, wsw, wse⟩

theorem qCount_mono {α : Type} [DecidableEq α] (boundsOf : α → Rect) (t : QNode α)
    (o x : α) : qCount x t ≤ qCount x (qInsert boundsOf t o).1 := by
  induction t with
  | leaf b info objs =>
      simp only [qInsert]
      split
      · exact le_refl _
      · split
        · simp [qCount, List.count_append]
        · split <;> simp [qCount, List.count_append] <;> omega
  | branch b info objs nw ne sw se ihnw ihne ihsw ihse =>
      simp only [qInsert]
      split
      · exact le_refl _
      · have h1 := ihnw
        have h2 := ihne
        have h3 := ihsw
        have h4 := ihse
        split <;> simp only [qCount, List.count_append] <;> simp <;> omega

theorem qCount_pos_mem {α : Type} [DecidableEq α] (t : QNode α) (x : α)
    (h : 1 ≤ qCount x t) : x ∈ qObjects t := by
  induction t with
  | leaf b info objs =>
      simp only [qCount] at h
      simpa [qObjects] using List.count_pos_iff.mp (by omega)
  | branch b info objs nw ne sw se ihnw ihne ihsw ihse =>
      simp only [qCount] at h
      simp only [qObjects, List.mem_append]
      by_cases h0 : 1 ≤ objs.count x
      · exact Or.inl (Or.inl (Or.inl (Or.inl (List.count_pos_iff.mp (by omega)))))
      · by_cases h1 : 1 ≤ qCount x nw
        · exact Or.inl (Or.inl (Or.inl (Or.inr (ihnw h1))))
        · by_cases h2 : 1 ≤ qCount x ne
          · exact Or.inl (Or.inl (Or.inr (ihne h2)))
          · by_cases h3 : 1 ≤ qCount x sw
            · exact Or.inl (Or.inr (ihsw h3))
            · exact Or.inr (ihse (by omega))

/-- Completeness of `query_range` with the root bounds: every stored object
of a well-formed quadtree is returned. -/
theorem qQuery_complete {α : Type} (boundsOf : α → Rect) (root : Rect) (t : QNode α)
    (hwf : qWF boundsOf root t) : ∀ x ∈ qObjects t, x ∈ qQuery boundsOf t root := by
  induction t with
  | leaf b info objs =>
      obtain ⟨hv, hs, hobjs⟩ := hwf
      intro x hx
      simp only [qObjects] at hx
      simp only [qQuery, intersects_root_of_sub hv hs, not_true_eq_false, if_false]
      rw [List.mem_filter]
      exact ⟨hx, intersects_of_sub (hobjs x hx) hs⟩
  | branch b info objs nw ne sw se ihnw ihne ihsw ihse =>
      obtain ⟨hv, hs, hobjs, wnw, wne, wsw, wse⟩ := hwf
      intro x hx
      simp only [qObjects, List.mem_append] at hx
      simp only [qQuery, intersects_root_of_sub hv hs, not_true_eq_false, if_false,
        List.mem_append]
      rcases hx with (((hx | hx) | hx) | hx) | hx
      · exact Or.inl (Or.inl (Or.inl (Or.inl
          (List.mem_filter.mpr ⟨hx, intersects_of_sub (hobjs x hx) hs⟩))))
      · exact Or.inl (Or.inl (Or.inl (Or.inr (ihnw wnw x hx))))
      · exact Or.inl (Or.inl (Or.inr (ihne wne x hx)))
      · exact Or.inl (Or.inr (ihsw wsw x hx))
      · exact Or.inr (ihse wse x hx)

/-! ### Stable-sort lemmas for `select_next_group` -/

theorem mem_insertSortedBy {α : Type} (key : α → ℚ) (x a : α) (l : List α) :
    a ∈ insertSortedBy key x l ↔ a = x ∨ a ∈ l := by
  induction l with
  | nil => simp [insertSortedBy]
  | cons y l ih =>
      simp only [insertSortedBy]
      split
      · simp [or_comm, or_assoc, or_left_comm]
      · simp [ih]
        tauto

theorem pairwise_insertSortedBy {α : Type} (key : α → ℚ) (x : α) (l : List α)
    (hl : l.Pairwise fun a b => key a ≤ key b) :
    (insertSortedBy key x l).Pairwise fun a b => key a ≤ key b := by
  induction l with
  | nil => simp [insertSortedBy]
  | cons y l ih =>
      rw [List.pairwise_cons] at hl
      simp only [insertSortedBy]
      split
      · rename_i hxy
        refine List.Pairwise.cons ?_ (List.Pairwise.cons hl.1 hl.2)
        intro z hz
        rcases List.mem_cons.mp hz with h | h
        · exact h ▸ hxy
        · exact le_trans hxy (hl.1 z h)
      · rename_i hxy
        push_neg at hxy
        refine List.Pairwise.cons ?_ (ih hl.2)
        intro z hz
        rcases (mem_insertSortedBy key x z l).mp hz with h | h
        · exact h ▸ le_of_lt hxy
        · exact hl.1 z h

theorem sortedBy_pairwise {α : Type} (key : α → ℚ) (l : List α) :
    (sortedBy key l).Pairwise fun a b => key a ≤ key b := by
  induction l with
  | nil => exact List.Pairwise.nil
  | cons x xs ih => exact pairwise_insertSortedBy key x _ ih

theorem filter_insertSortedBy {α : Type} (key : α → ℚ) (p : α → Bool) (x : α) (l : List α)
    (hl : l.Pairwise fun a b => key a ≤ key b) :
    (insertSortedBy key x l).filter p =
      if p x then insertSortedBy key x (l.filter p) else l.filter p := by
  induction l with
  | nil => cases hpx : p x <;> simp [insertSortedBy, List.filter, hpx]
  | cons y l ih =>
      rw [List.pairwise_cons] at hl
      have ihl := ih hl.2
      by_cases hxy : key x ≤ key y
      · rw [insertSortedBy, if_pos hxy]
        cases hpx : p x
        · cases hpy : p y <;> simp [List.filter_cons, hpx, hpy]
        · cases hpy : p y
          · simp only [List.filter_cons, hpx, hpy, if_true, if_false, Bool.false_eq_true]
            cases hf : List.filter p l with
            | nil => simp [insertSortedBy]
            | cons z zs =>
                have hz : z ∈ l :=
                  List.mem_of_mem_filter (hf ▸ List.mem_cons_self z zs)
                simp [insertSortedBy, le_trans hxy (hl.1 z hz)]
          · simp [List.filter_cons, hpx, hpy, insertSortedBy, hxy]
      · rw [insertSortedBy, if_neg hxy]
        cases hpx : p x
        · cases hpy : p y <;> simp [List.filter_cons, hpx, hpy, ihl]
        · cases hpy : p y
          · simp [List.filter_cons, hpx, hpy, ihl]
          · simp [List.filter_cons, hpx, hpy, ihl, insertSortedBy, hxy]

theorem filter_sortedBy {α : Type} (key : α → ℚ) (p : α → Bool) (l : List α) :
    (sortedBy key l).filter p = sortedBy key (l.filter p) := by
  induction l with
  | nil => rfl
  | cons x xs ih =>
      simp only [sortedBy, List.filter_cons]
      rw [filter_insertSortedBy key p x _ (sortedBy_pairwise key xs), ih]
      cases hpx : p x <;> simp [sortedBy]

theorem head_insertSortedBy {α : Type} (key : α → ℚ) (x : α) (l : List α) :
    (insertSortedBy key x l).head? =
      match l.head? with
      | none => some x
      | some b => if key x ≤ key b then some x else some b := by
  cases l with
  | nil => simp [insertSortedBy]
  | cons y l =>
      simp only [insertSortedBy, List.head?_cons]
      split <;> simp

theorem head_sortedBy {α : Type} (key : α → ℚ) (l : List α) :
    (sortedBy key l).head? = firstMinBy key l := by
  induction l with
  | nil => rfl
  | cons x xs ih =>
      simp only [sortedBy, firstMinBy, head_insertSortedBy, ih]

theorem firstMinBy_eq_none {α : Type} (key : α → ℚ) (l : List α) :
    firstMinBy key l = none ↔ l = [] := by
  cases l with
  | nil => simp [firstMinBy]
  | cons x xs =>
      simp only [firstMinBy]
      constructor
      · intro h
        exfalso
        revert h
        cases firstMinBy key xs
        · simp
        · simp only []
          split <;> simp
      · intro h
        exact absurd h (List.cons_ne_nil x xs)

/-! ### C6 -/

/-- C6: `select_next_group(mode)` filters out groups whose `count` has
reached `max_count`; among the remaining groups, for both modes it returns
the group with the lowest ratio `generated_area/target_area` (0 when
`target_area` is 0), ties broken by the groups' list order; it returns
`none` exactly when every group has `count ≥ max_count`. -/
theorem selectNextGroup_spec (generationMode : String) (groups : List Group) :
    selectNextGroup generationMode groups = specSelectNextGroup groups ∧
    (selectNextGroup generationMode groups = none ↔
      ∀ g ∈ groups, g.maxCount ≤ g.count) := by
  have hsel : selectNextGroup generationMode groups = specSelectNextGroup groups := by
    simp only [selectNextGroup, specSelectNextGroup, ite_self]
    rw [filter_sortedBy, head_sortedBy]
    rfl
  refine ⟨hsel, ?_⟩
  rw [hsel]
  unfold specSelectNextGroup
  rw [firstMinBy_eq_none, List.filter_eq_nil_iff]
  constructor
  · intro h g hg
    have := h g hg
    simpa [Nat.not_lt] using this
  · intro h g hg
    simp [Nat.not_lt.mpr (h g hg)]

/-! ### K-d tree lemmas -/

theorem mem_sortedBy {α : Type} (key : α → ℚ) (x : α) (l : List α) :
    x ∈ sortedBy key l ↔ x ∈ l := by
  induction l with
  | nil => simp [sortedBy]
  | cons y ys ih => simp [sortedBy, mem_insertSortedBy, ih]

theorem subRect_unionRect_left (a b : Rect) : subRect a (unionRect a b) :=
  ⟨min_le_left _ _, le_max_left _ _, min_le_left _ _, le_max_left _ _⟩

theorem subRect_unionRect_right (a b : Rect) : subRect b (unionRect a b) :=
  ⟨min_le_right _ _, le_max_right _ _, min_le_right _ _, le_max_right _ _⟩

theorem foldl_unionRect_spec {α : Type} (boundsOf : α → Rect) (os : List α) :
    ∀ acc : Rect,
      subRect acc (os.foldl (fun a x => unionRect a (boundsOf x)) acc) ∧
      ∀ x ∈ os, subRect (boundsOf x) (os.foldl (fun a x => unionRect a (boundsOf x)) acc) := by
  induction os with
  | nil => intro acc; exact ⟨subRect_refl acc, by simp⟩
  | cons o os ih =>
      intro acc
      simp only [List.foldl_cons]
      refine ⟨subRect_trans (subRect_unionRect_left acc (boundsOf o)) (ih _).1, ?_⟩
      intro x hx
      rcases List.mem_cons.mp hx with hx | hx
      · subst hx
        exact subRect_trans (subRect_unionRect_right acc (boundsOf x)) (ih _).1
      · exact (ih _).2 x hx

theorem kCalcBounds_sub {α : Type} (boundsOf : α → Rect) (objs : List α) (b : Rect)
    (h : kCalcBounds boundsOf objs = some b) : ∀ o ∈ objs, subRect (boundsOf o) b := by
  cases objs with
  | nil => simp [kCalcBounds] at h
  | cons a as =>
      simp only [kCalcBounds, Option.some.injEq] at h
      intro o ho
      rcases List.mem_cons.mp ho with ho | ho
      · rw [ho, ← h]
        exact (foldl_unionRect_spec boundsOf as (boundsOf a)).1
      · rw [← h]
        exact (foldl_unionRect_spec boundsOf as (boundsOf a)).2 o ho

theorem kInsert_snd {α : Type} (boundsOf : α → Rect) (centerOf : α → Pt)
    (t : KNode α) (o : α) : (kInsert boundsOf centerOf t o).2 = true := by
  induction t with
  | leaf d mo md objs bounds =>
      simp only [kInsert]
      split <;> rfl
  | inner d mo md bounds m l r ihl ihr =>
      simp only [kInsert]
      split <;> simp [ihl, ihr]

theorem kObjects_mkKDNode {α : Type} (boundsOf : α → Rect) (centerOf : α → Pt)
    (mo md : ℕ) (x : α) :
    ∀ (fuel : ℕ) (objs : List α) (d : ℕ), md - d ≤ fuel →
      (x ∈ kObjects (mkKDNode boundsOf centerOf objs d mo md) ↔ x ∈ objs) := by
  intro fuel
  induction fuel with
  | zero =>
      intro objs d hf
      rw [mkKDNode, if_neg (by omega)]
      simp [kObjects]
  | succ n ih =>
      intro objs d hf
      by_cases h : mo < objs.length ∧ d < md
      · rw [mkKDNode, if_pos h]
        simp only [kObjects, List.mem_append]
        rw [ih _ (d + 1) (by omega), ih _ (d + 1) (by omega)]
        rw [← List.mem_append, List.take_append_drop]
        exact mem_sortedBy _ x objs
      · rw [mkKDNode, if_neg h]
        simp [kObjects]

theorem mem_kObjects_mkKDNode {α : Type} (boundsOf : α → Rect) (centerOf : α → Pt)
    (objs : List α) (d mo md : ℕ) (x : α) :
    x ∈ kObjects (mkKDNode boundsOf centerOf objs d mo md) ↔ x ∈ objs :=
  kObjects_mkKDNode boundsOf centerOf mo md x (md - d) objs d le_rfl

theorem mkKDNode_eq_kSplit {α : Type} (boundsOf : α → Rect) (centerOf : α → Pt)
    (objs : List α) (d mo md : ℕ) (h : mo < objs.length ∧ d < md) :
    mkKDNode boundsOf centerOf objs d mo md =
      kSplit boundsOf centerOf d mo md objs (kCalcBounds boundsOf objs) := by
  rw [mkKDNode, if_pos h]
  rfl

theorem kWF_mkKDNode {α : Type} (boundsOf : α → Rect) (centerOf : α → Pt)
    (mo md : ℕ) :
    ∀ (fuel : ℕ) (objs : List α) (d : ℕ), md - d ≤ fuel →
      kWF boundsOf (mkKDNode boundsOf centerOf objs d mo md) := by
  intro fuel
  induction fuel with
  | zero =>
      intro objs d hf
      rw [mkKDNode, if_neg (by omega)]
      simp [kWF]
  | succ n ih =>
      intro objs d hf
      by_cases h : mo < objs.length ∧ d < md
      · rw [mkKDNode, if_pos h]
        refine ⟨?_, ih _ (d + 1) (by omega), ih _ (d + 1) (by omega)⟩
        have hlen : (sortedBy (kAxisVal centerOf d) objs).length = objs.length := by
          have : ∀ (key : α → ℚ) (l : List α), (sortedBy key l).length = l.length := by
            intro key l
            induction l with
            | nil => rfl
            | cons y ys ihl =>
                have hins : ∀ (z : α) (s : List α),
                    (insertSortedBy key z s).length = s.length + 1 := by
                  intro z s
                  induction s with
                  | nil => rfl
                  | cons w ws ihs =>
                      simp only [insertSortedBy]
                      split <;> simp [ihs]
                simp [sortedBy, hins, ihl]
          exact this _ _
        obtain ⟨b, hb⟩ : ∃ b, kCalcBounds boundsOf objs = some b := by
          cases hobjs : objs with
          | nil => rw [hobjs] at h; simp at h
          | cons a as => exact ⟨_, rfl⟩
        have hdropne :
            List.drop ((sortedBy (kAxisVal centerOf d) objs).length / 2)
              (sortedBy (kAxisVal centerOf d) objs) ≠ [] := by
          rw [← List.length_pos_iff_ne_nil, List.length_drop, hlen]
          omega
        obtain ⟨o0, ho0⟩ := List.exists_mem_of_ne_nil _ hdropne
        refine ⟨b, hb, o0, ?_, ?_⟩
        · rw [List.mem_append]
          right
          rw [mem_kObjects_mkKDNode]
          exact ho0
        · refine kCalcBounds_sub boundsOf objs b hb o0 ?_
          rw [← mem_sortedBy (kAxisVal centerOf d) o0 objs]
          exact List.mem_of_mem_drop ho0
      · rw [mkKDNode, if_neg h]
        simp [kWF]

theorem mem_kObjects_kInsert {α : Type} (boundsOf : α → Rect) (centerOf : α → Pt)
    (t : KNode α) (o x : α) :
    x ∈ kObjects ((kInsert boundsOf centerOf t o).1) ↔ x ∈ kObjects t ∨ x = o := by
  induction t with
  | leaf d mo md objs bounds =>
      simp only [kInsert]
      split
      · rename_i h
        rw [← mkKDNode_eq_kSplit boundsOf centerOf (objs ++ [o]) d mo md h]
        rw [mem_kObjects_mkKDNode]
        simp [kObjects]
      · simp [kObjects]
  | inner d mo md bounds m l r ihl ihr =>
      simp only [kInsert]
      split <;> simp only [kObjects, List.mem_append, ihl, ihr] <;> tauto

theorem kWF_kInsert {α : Type} (boundsOf : α → Rect) (centerOf : α → Pt)
    (t : KNode α) (o : α) (hwf : kWF boundsOf t) :
    kWF boundsOf ((kInsert boundsOf centerOf t o).1) := by
  induction t with
  | leaf d mo md objs bounds =>
      simp only [kInsert]
      split
      · rename_i h
        rw [← mkKDNode_eq_kSplit boundsOf centerOf (objs ++ [o]) d mo md h]
        exact kWF_mkKDNode boundsOf centerOf mo md (md - d) _ d le_rfl
      · simp [kWF]
  | inner d mo md bounds m l r ihl ihr =>
      obtain ⟨⟨b, hb, o0, ho0, hsub⟩, hl, hr⟩ := hwf
      simp only [kInsert]
      split
      · refine ⟨⟨b, hb, o0, ?_, hsub⟩, ihl hl, hr⟩
        rw [List.mem_append] at ho0 ⊢
        rcases ho0 with h0 | h0
        · exact Or.inl ((mem_kObjects_kInsert boundsOf centerOf l o o0).mpr (Or.inl h0))
        · exact Or.inr h0
      · refine ⟨⟨b, hb, o0, ?_, hsub⟩, hl, ihr hr⟩
        rw [List.mem_append] at ho0 ⊢
        rcases ho0 with h0 | h0
        · exact Or.inl h0
        · exact Or.inr ((mem_kObjects_kInsert boundsOf centerOf r o o0).mpr (Or.inl h0))

/-- Completeness of the k-d `query_range` against a query box `T` that every
stored object intersects. -/
theorem kQuery_complete {α : Type} (boundsOf : α → Rect) (T : Rect) (t : KNode α)
    (hwf : kWF boundsOf t)
    (hint : ∀ x ∈ kObjects t, intersectsBounds (boundsOf x) T = true) :
    ∀ x ∈ kObjects t, x ∈ kQuery boundsOf t T := by
  induction t with
  | leaf d mo md objs bounds =>
      intro x hx
      simp only [kObjects] at hx
      simp only [kWF] at hwf
      obtain ⟨b, hb⟩ : ∃ b, kCalcBounds boundsOf objs = some b := by
        cases hobjs : objs with
        | nil => rw [hobjs] at hx; simp at hx
        | cons a as => exact ⟨_, rfl⟩
      have hsub := kCalcBounds_sub boundsOf objs b hb x hx
      have hxT := hint x (by simpa [kObjects] using hx)
      have hbT : intersectsBounds b T = true := intersects_of_contains hsub hxT
      simp only [kQuery, hwf, hb, hbT, not_true_eq_false, if_false]
      exact List.mem_filter.mpr ⟨hx, hxT⟩
  | inner d mo md bounds m l r ihl ihr =>
      obtain ⟨⟨b, hb, o0, ho0, hsub⟩, hl, hr⟩ := hwf
      intro x hx
      have hbT : intersectsBounds b T = true :=
        intersects_of_contains hsub (hint o0 (by simpa [kObjects] using ho0))
      simp only [kObjects, List.mem_append] at hx
      simp only [kQuery, hb, hbT, not_true_eq_false, if_false, List.mem_append]
      rcases hx with hx | hx
      · exact Or.inl (ihl hl (fun y hy => hint y (by simp [kObjects, hy])) x hx)
      · exact Or.inr (ihr hr (fun y hy => hint y (by simp [kObjects, hy])) x hx)

/-! ### Round-trip lemmas over insert sequences -/

theorem qInsertAll_bounds {α : Type} (boundsOf : α → Rect) (os : List α) :
    ∀ t : QNode α, (qInsertAll boundsOf t os).bounds = t.bounds := by
  induction os with
  | nil => intro t; rfl
  | cons o os ih =>
      intro t
      simp only [qInsertAll, List.foldl_cons]
      rw [show List.foldl (fun t o => (qInsert boundsOf t o).1) ((qInsert boundsOf t o).1) os
          = qInsertAll boundsOf ((qInsert boundsOf t o).1) os from rfl]
      rw [ih, qInsert_bounds]

theorem qWF_qInsertAll {α : Type} (boundsOf : α → Rect) (root : Rect) (os : List α) :
    ∀ t : QNode α, qWF boundsOf root t → qWF boundsOf root (qInsertAll boundsOf t os) := by
  induction os with
  | nil => intro t h; exact h
  | cons o os ih =>
      intro t h
      exact ih _ (qWF_qInsert boundsOf root t o h)

theorem qCount_le_qInsertAll {α : Type} [DecidableEq α] (boundsOf : α → Rect)
    (os : List α) (x : α) :
    ∀ t : QNode α, qCount x t ≤ qCount x (qInsertAll boundsOf t os) := by
  induction os with
  | nil => intro t; exact le_refl _
  | cons o os ih =>
      intro t
      exact le_trans (qCount_mono boundsOf t o x) (ih _)

theorem qCount_one_qInsertAll {α : Type} [DecidableEq α] (boundsOf : α → Rect)
    (T : Rect) (os : List α) :
    ∀ t : QNode α, t.bounds = T →
      ∀ o ∈ os, intersectsBounds (boundsOf o) T = true →
        1 ≤ qCount o (qInsertAll boundsOf t os) := by
  induction os with
  | nil => intro t _ o ho; simp at ho
  | cons o' os ih =>
      intro t hb o ho hoT
      simp only [qInsertAll, List.foldl_cons]
      rw [show List.foldl (fun t o => (qInsert boundsOf t o).1) ((qInsert boundsOf t o').1) os
          = qInsertAll boundsOf ((qInsert boundsOf t o').1) os from rfl]
      rcases List.mem_cons.mp ho with ho | ho
      · subst ho
        have hsnd : (qInsert boundsOf t o).2 = true := by
          rw [qInsert_snd, hb]; exact hoT
        have h1 := qCount_qInsert_self boundsOf t o
        rw [hsnd] at h1
        simp only [Bool.toNat_true] at h1
        exact le_trans (by omega) (qCount_le_qInsertAll boundsOf os o _)
      · exact ih _ (by rw [qInsert_bounds, hb]) o ho hoT

theorem mem_kObjects_kInsertAll {α : Type} (boundsOf : α → Rect) (centerOf : α → Pt)
    (os : List α) (x : α) :
    ∀ t : KNode α, x ∈ kObjects (kInsertAll boundsOf centerOf t os) ↔
      x ∈ kObjects t ∨ x ∈ os := by
  induction os with
  | nil => intro t; simp [kInsertAll]
  | cons o os ih =>
      intro t
      simp only [kInsertAll, List.foldl_cons]
      rw [show List.foldl (fun t o => (kInsert boundsOf centerOf t o).1)
            ((kInsert boundsOf centerOf t o).1) os
          = kInsertAll boundsOf centerOf ((kInsert boundsOf centerOf t o).1) os from rfl]
      rw [ih, mem_kObjects_kInsert]
      simp only [List.mem_cons]
      tauto

theorem kWF_kInsertAll {α : Type} (boundsOf : α → Rect) (centerOf : α → Pt)
    (os : List α) :
    ∀ t : KNode α, kWF boundsOf t → kWF boundsOf (kInsertAll boundsOf centerOf t os) := by
  induction os with
  | nil => intro t h; exact h
  | cons o os ih =>
      intro t h
      exact ih _ (kWF_kInsert boundsOf centerOf t o h)

/-! ### C5 -/

/-- C5 counterexample: a k-d tree index created with bounds `(0,0,10,10)`
accepts (returns `True` for) an object whose bounds `(20,20,21,21)` lie
entirely outside the index bounds — the k-d insert has no bounds check —
and the full-bounds query `query_range((0,0,10,10))` then fails to return
that successfully inserted object. -/
theorem kdtree_roundtrip_fails_out_of_bounds :
    (kInsert Obj.bounds objCenter (KNode.leaf 0 10 10 ([] : List Obj) none)
        ⟨1, ⟨20, 20, 21, 21⟩⟩).2 = true ∧
    (⟨1, ⟨20, 20, 21, 21⟩⟩ : Obj) ∉
      kQuery Obj.bounds
        (kInsert Obj.bounds objCenter (KNode.leaf 0 10 10 ([] : List Obj) none)
          ⟨1, ⟨20, 20, 21, 21⟩⟩).1 ⟨0, 0, 10, 10⟩ := by
  refine ⟨kInsert_snd _ _ _ _, ?_⟩
  norm_num [kInsert, kSplit, kQuery, kCalcBounds, intersectsBounds, Obj.bounds]

/-- C5 (amended): after any sequence of successful inserts, `query_range`
over the index's own full bounds `T` returns every inserted object — for
the quadtree unconditionally, because a quadtree insert succeeds exactly
when the object's bounds intersect the root bounds, and for the k-d tree
provided every inserted object's bounds intersect `T`: a k-d insert always
reports success, even for an object wholly outside the index bounds, and
such an object can be missed by the full-bounds query (see the
counterexample).  After `clear()`, every `query_range` call returns the
empty list on both indexes. -/
theorem spatial_index_roundtrip_amended {α : Type} [DecidableEq α]
    (boundsOf : α → Rect) (centerOf : α → Pt) (T : Rect) (info : QInfo)
    (d mo md : ℕ) (os : List α) (hT : validRect T)
    (hos : ∀ o ∈ os, intersectsBounds (boundsOf o) T = true) :
    (∀ o ∈ os, o ∈ qQuery boundsOf (qInsertAll boundsOf (QNode.leaf T info []) os) T) ∧
    (∀ o ∈ os, o ∈ kQuery boundsOf
        (kInsertAll boundsOf centerOf (KNode.leaf d mo md [] none) os) T) ∧
    (∀ (t : KNode α) (o : α), (kInsert boundsOf centerOf t o).2 = true) ∧
    (∀ (t : QNode α) (q : Rect), qQuery boundsOf (qClear t) q = []) ∧
    (∀ (t : KNode α) (q : Rect), kQuery boundsOf (kClear t) q = []) := by
  refine ⟨?_, ?_, kInsert_snd boundsOf centerOf, ?_, ?_⟩
  · intro o ho
    have hwf0 : qWF boundsOf T (QNode.leaf T info []) :=
      ⟨hT, subRect_refl T, by simp⟩
    have hwf := qWF_qInsertAll boundsOf T os _ hwf0
    have hcount := qCount_one_qInsertAll boundsOf T os (QNode.leaf T info []) rfl o ho
      (hos o ho)
    exact qQuery_complete boundsOf T _ hwf o (qCount_pos_mem _ o hcount)
  · intro o ho
    have hwf0 : kWF boundsOf (KNode.leaf d mo md ([] : List α) none) := by
      simp [kWF, kCalcBounds]
    have hwf := kWF_kInsertAll boundsOf centerOf os _ hwf0
    have hmem : o ∈ kObjects (kInsertAll boundsOf centerOf
        (KNode.leaf d mo md ([] : List α) none) os) :=
      (mem_kObjects_kInsertAll boundsOf centerOf os o _).mpr (Or.inr ho)
    refine kQuery_complete boundsOf T _ hwf ?_ o hmem
    intro x hx
    rcases (mem_kObjects_kInsertAll boundsOf centerOf os x _).mp hx with hx | hx
    · simp [kObjects] at hx
    · exact hos x hx
  · intro t q
    cases t <;> simp [qClear, qQuery]
  · intro t q
    cases t <;> rfl

/-- Witness for `spatial_index_roundtrip_amended`: one in-bounds object
round-trips through both indexes at concrete parameters. -/
theorem spatial_index_roundtrip_amended_witness :
    (⟨1, ⟨1, 1, 2, 2⟩⟩ : Obj) ∈
      qQuery Obj.bounds
        (qInsertAll Obj.bounds (QNode.leaf ⟨0, 0, 10, 10⟩ ⟨0, 5, 10⟩ [])
          [⟨1, ⟨1, 1, 2, 2⟩⟩]) ⟨0, 0, 10, 10⟩ :=
  (spatial_index_roundtrip_amended Obj.bounds objCenter ⟨0, 0, 10, 10⟩ ⟨0, 5, 10⟩
      0 10 10 [⟨1, ⟨1, 1, 2, 2⟩⟩] (by norm_num [validRect])
      (by intro o ho
          simp only [List.mem_singleton] at ho
          subst ho
          norm_num [intersectsBounds, Obj.bounds])).1
    ⟨1, ⟨1, 1, 2, 2⟩⟩ (List.mem_singleton.mpr rfl)

/-! ### C3 -/

/-- C3 counterexample: an explicit call of `generate_random_polygon` with
`sides = 4`, valid clipped parameters, in-range random draws and the
small-edge optimization pass **enabled**, whose returned outline is not
closed: the first edge of the generated quadrilateral is shorter than the
default `min_edge_length = radius/10`, so the pass moves `points[0]` (and
`points[1]`) but not the closing copy `points[4]`, leaving
`first ≠ last`. -/
theorem generateRandomPolygon_optimize_breaks_closure :
    (generateRandomPolygon sqrtCe cosCe sinCe 3 (0, 0) 10 4 1 (1 / 5) true none aDCe 0
        (fun _ => 10)).isSome = true ∧
    ((generateRandomPolygon sqrtCe cosCe sinCe 3 (0, 0) 10 4 1 (1 / 5) true none aDCe 0
        (fun _ => 10)).getD []).head? ≠
    ((generateRandomPolygon sqrtCe cosCe sinCe 3 (0, 0) 10 4 1 (1 / 5) true none aDCe 0
        (fun _ => 10)).getD []).getLast? := by
  constructor
  · norm_num [generateRandomPolygon]
  · norm_num [generateRandomPolygon, polygonVertices, optimizePolygonSides, optimizeEdge,
      calculateDistance, clip, sqrtCe, cosCe, sinCe, aDCe, List.range_succ, Prod.ext_iff]

/-- C3 (amended): for every valid call (`sides ≥ 3`, irregularity and
spikiness clipped to `[0,1]`), `generate_random_polygon` returns an outline
with `sides + 1` points whether or not the small-edge pass is enabled, and
that outline is closed (first point equals last point) when the pass is
disabled — with the pass enabled closure can be lost (see the
counterexample); `generate_circle` and `generate_ellipse` with
`segments ≥ 8` return closed outlines with `segments + 1` points.  The trig
oracles are assumed to agree at the angles `0` and `2π`, which ideal cosine
and sine do. -/
theorem shapes_outline_spec (sqrtF cosF sinF : ℚ → ℚ) (piF : ℚ) (center : Pt)
    (radius : ℚ) (sides : ℕ) (irregularity spikiness : ℚ) (minEdgeLength : Option ℚ)
    (angleDraws : ℕ → ℚ) (startAngle : ℚ) (radiusDraws : ℕ → ℚ)
    (circleRadius majorAxis minorAxis rotation : ℚ) (segments : ℕ)
    (h3 : 3 ≤ sides) (h8 : 8 ≤ segments)
    (hcos : cosF (2 * piF) = cosF 0) (hsin : sinF (2 * piF) = sinF 0) :
    (∀ optimizeSides : Bool, ∃ l,
        generateRandomPolygon sqrtF cosF sinF piF center radius sides irregularity
          spikiness optimizeSides minEdgeLength angleDraws startAngle radiusDraws = some l ∧
        l.length = sides + 1) ∧
    (∃ l, generateRandomPolygon sqrtF cosF sinF piF center radius sides irregularity
          spikiness false minEdgeLength angleDraws startAngle radiusDraws = some l ∧
        l ≠ [] ∧ l.head? = l.getLast?) ∧
    ((generateCircle cosF sinF piF center circleRadius segments).length = segments + 1 ∧
      (generateCircle cosF sinF piF center circleRadius segments) ≠ [] ∧
      (generateCircle cosF sinF piF center circleRadius segments).head? =
        (generateCircle cosF sinF piF center circleRadius segments).getLast?) ∧
    ((generateEllipse cosF sinF piF center majorAxis minorAxis rotation segments).length =
        segments + 1 ∧
      (generateEllipse cosF sinF piF center majorAxis minorAxis rotation segments) ≠ [] ∧
      (generateEllipse cosF sinF piF center majorAxis minorAxis rotation segments).head? =
        (generateEllipse cosF sinF piF center majorAxis minorAxis rotation segments).getLast?) := by
  have hns : ¬ sides < 3 := by omega
  have hsegs : ¬ segments < 8 := by omega
  have hseg0 : (segments : ℚ) ≠ 0 := Nat.cast_ne_zero.mpr (by omega)
  have hangle : 2 * piF * (segments : ℚ) / (segments : ℚ) = 2 * piF := by
    field_simp
  refine ⟨?_, ?_, ?_, ?_⟩
  · intro optimizeSides
    simp only [generateRandomPolygon, hns, if_false]
    refine ⟨_, rfl, ?_⟩
    set verts := polygonVertices cosF sinF center radius radiusDraws
      (((List.range sides).map angleDraws).map fun s =>
        s * (2 * piF / ((List.range sides).map angleDraws).sum)) 0 startAngle with hverts
    have hv : verts.length = sides := by
      rw [hverts, polygonVertices_length]; simp
    obtain ⟨v, rest, hm⟩ : ∃ v rest, verts = v :: rest := by
      cases hv2 : verts with
      | nil => rw [hv2] at hv; simp at hv; omega
      | cons a b => exact ⟨a, b, rfl⟩
    rw [hm] at hv ⊢
    cases optimizeSides <;>
      simp_all [optimizePolygonSides_length, List.length_append] <;> omega
  · simp only [generateRandomPolygon, hns, if_false]
    refine ⟨_, rfl, ?_⟩
    set verts := polygonVertices cosF sinF center radius radiusDraws
      (((List.range sides).map angleDraws).map fun s =>
        s * (2 * piF / ((List.range sides).map angleDraws).sum)) 0 startAngle with hverts
    have hv : verts.length = sides := by
      rw [hverts, polygonVertices_length]; simp
    obtain ⟨v, rest, hm⟩ : ∃ v rest, verts = v :: rest := by
      cases hv2 : verts with
      | nil => rw [hv2] at hv; simp at hv; omega
      | cons a b => exact ⟨a, b, rfl⟩
    rw [hm]
    refine ⟨by simp, ?_⟩
    simp only [Bool.false_eq_true, if_false, List.take_succ_cons, List.take_zero,
      List.cons_append, List.head?_cons]
    rw [show v :: (rest ++ [v]) = (v :: rest) ++ [v] from rfl, List.getLast?_concat]
  · have h := mapRange_head_last (fun i =>
      (center.1 + circleRadius * cosF (2 * piF * (i : ℚ) / ((segments : ℚ))),
       center.2 + circleRadius * sinF (2 * piF * (i : ℚ) / ((segments : ℚ))))) segments
    simp only [generateCircle, if_neg hsegs]
    refine ⟨by rw [List.length_map, List.length_range], by simp, ?_⟩
    rw [h.1, h.2]
    norm_num [hangle, hcos, hsin]
  · have h := mapRange_head_last (fun i =>
      (center.1 + (majorAxis * cosF (2 * piF * (i : ℚ) / ((segments : ℚ))) * cosF rotation -
          minorAxis * sinF (2 * piF * (i : ℚ) / ((segments : ℚ))) * sinF rotation),
       center.2 + (majorAxis * cosF (2 * piF * (i : ℚ) / ((segments : ℚ))) * sinF rotation +
          minorAxis * sinF (2 * piF * (i : ℚ) / ((segments : ℚ))) * cosF rotation))) segments
    simp only [generateEllipse, if_neg hsegs]
    refine ⟨by rw [List.length_map, List.length_range], by simp, ?_⟩
    rw [h.1, h.2]
    norm_num [hangle, hcos, hsin]

/-- Witness for `shapes_outline_spec` at a concrete input (`sides = 3`,
`segments = 8`, trivial oracles, for which the trig-periodicity hypotheses
hold definitionally). -/
theorem shapes_outline_spec_witness :
    ∃ l, generateRandomPolygon (fun _ => 0) (fun _ => 0) (fun _ => 0) 0 (0, 0) 1 3 0 0
        true none (fun _ => 0) 0 (fun _ => 0) = some l ∧ l.length = 3 + 1 :=
  (shapes_outline_spec (fun _ => 0) (fun _ => 0) (fun _ => 0) 0 (0, 0) 1 3 0 0 none
    (fun _ => 0) 0 (fun _ => 0) 0 0 0 0 8 (by norm_num) (by norm_num) rfl rfl).1 true

/-! ### C7 -/

/-- `xs = [p.x for p in points]` succeeds on a list of `APoint` objects and
collects the x coordinates. -/
theorem attrMapX_apoints (l : List Pt) :
    attrMapX (l.map fun q => PyPoint.apoint q.1 q.2) =
      Except.ok (l.map Prod.fst) := by
  induction l with
  | nil => rfl
  | cons p rest ih => simp [attrMapX, PyPoint.attrX, ih]

/-- `ys = [p.y for p in points]` succeeds on a list of `APoint` objects. -/
theorem attrMapY_apoints (l : List Pt) :
    attrMapY (l.map fun q => PyPoint.apoint q.1 q.2) =
      Except.ok (l.map Prod.snd) := by
  induction l with
  | nil => rfl
  | cons p rest ih => simp [attrMapY, PyPoint.attrY, ih]

/-- The max-radius loop succeeds on `APoint` objects and computes the same
fold as the pure `boundingCircleRadius`. -/
theorem hypotLoop_apoints (sqrtF : ℚ → ℚ) (cx cy : ℚ) (l : List Pt) (m : ℚ) :
    hypotLoop sqrtF cx cy (l.map fun q => PyPoint.apoint q.1 q.2) m =
      Except.ok (l.foldl (fun m p =>
        let d := sqrtF ((p.1 - cx) ^ 2 + (p.2 - cy) ^ 2)
        if d > m then d else m) m) := by
  induction l generalizing m with
  | nil => rfl
  | cons p rest ih =>
      simp only [List.map_cons, hypotLoop, PyPoint.attrX, PyPoint.attrY, List.foldl_cons, ih]

/-- Faithfulness of the dynamic embedding: on `APoint` objects every
attribute read succeeds and `calculate_bounding_circle` returns exactly the
pure centroid `boundingCircleCenter` and radius `boundingCircleRadius` (this
is the successful call pattern of `core/generator.py` line 619). -/
theorem calculateBoundingCircle_apoints (sqrtF : ℚ → ℚ) (l : List Pt) :
    calculateBoundingCircle sqrtF (l.map fun q => PyPoint.apoint q.1 q.2) =
      Except.ok (boundingCircleCenter l, boundingCircleRadius sqrtF l) := by
  rcases l with _ | ⟨p, rest⟩
  · rfl
  · rw [calculateBoundingCircle, if_neg (by simp), attrMapX_apoints, attrMapY_apoints]
    simp only []
    rw [hypotLoop_apoints]
    rw [boundingCircleRadius, boundingCircleCenter, if_neg (by simp)]
    simp [List.length_map]

/-- On a **nonempty list of plain tuples** — exactly what
`adjust_points_to_boundary` returns — `calculate_bounding_circle` raises
`AttributeError` at its very first attribute read. -/
theorem calculateBoundingCircle_tuples (sqrtF : ℚ → ℚ) (l : List Pt) (h : l ≠ []) :
    calculateBoundingCircle sqrtF (l.map fun q => PyPoint.tuple q.1 q.2) =
      Except.error () := by
  rcases l with _ | ⟨p, rest⟩
  · exact absurd rfl h
  · simp [calculateBoundingCircle, attrMapX, PyPoint.attrX]

/-- C7 (code bug): whenever boundary adjustment triggers — the candidate's
bounding circle lies within `radius + 2*min_distance` of a region edge — and
the outline is nonempty, the adjustment block of
`_generate_single_aggregate` (`core/generator.py` lines 567-578) never
completes: `adjust_points_to_boundary` returns plain `(x, y)` tuples, and
`calculate_bounding_circle` at line 578 reads `p.x` on a tuple, raising
`AttributeError`, so instead of being adjusted and committed as the claim
describes, the candidate is discarded by the `except Exception` of
`_parallel_generate_attempt`. -/
theorem boundaryAdjustBlock_attribute_error (sqrtF : ℚ → ℚ) (center : Pt)
    (radius : ℚ) (points : List Pt) (bmin bmax : Pt) (md : ℚ)
    (hnear : isNearBoundary center radius bmin bmax md = true)
    (hne : points ≠ []) :
    boundaryAdjustBlock sqrtF center radius points bmin bmax md =
      Except.error () ∧
    attemptAfterAdjust
      (boundaryAdjustBlock sqrtF center radius points bmin bmax md) = none := by
  have hclamped :
      adjustPointsToBoundary (points.map fun p =>
        ((moveTowardBoundary center bmin bmax md).1 + (p.1 - center.1),
         (moveTowardBoundary center bmin bmax md).2 + (p.2 - center.2)))
        md bmin bmax ≠ [] := by
    rcases points with _ | ⟨p, rest⟩
    · exact absurd rfl hne
    · simp [adjustPointsToBoundary]
  have hmain : boundaryAdjustBlock sqrtF center radius points bmin bmax md =
      Except.error () := by
    rw [boundaryAdjustBlock, if_pos hnear]
    simp only []
    rw [calculateBoundingCircle_tuples sqrtF _ hclamped]
  refine ⟨hmain, ?_⟩
  rw [hmain]
  rfl

/-- Witness for `boundaryAdjustBlock_attribute_error` at a concrete
candidate: center `(2, 50)` with radius 1 near the left edge of region
`(0,0)`-`(100,100)`, `min_distance = 1`, a five-point square outline — the
hypotheses hold and the block evaluates to `AttributeError`. -/
theorem boundaryAdjustBlock_attribute_error_witness :
    isNearBoundary ((2 : ℚ), (50 : ℚ)) 1 (0, 0) (100, 100) 1 = true ∧
    ([((1 : ℚ), (49 : ℚ)), (3, 49), (3, 51), (1, 51), (1, 49)] : List Pt) ≠ [] ∧
    boundaryAdjustBlock (fun _ => 0) ((2 : ℚ), (50 : ℚ)) 1
      [(1, 49), (3, 49), (3, 51), (1, 51), (1, 49)] (0, 0) (100, 100) 1 =
      Except.error () :=
  ⟨by norm_num [isNearBoundary], by simp,
   (boundaryAdjustBlock_attribute_error (fun _ => 0) ((2 : ℚ), (50 : ℚ)) 1
     [(1, 49), (3, 49), (3, 51), (1, 51), (1, 49)] (0, 0) (100, 100) 1
     (by norm_num [isNearBoundary]) (by simp)).1⟩

/-! ### C10 -/

/-- C10: `calculate_porosity` returns `0.0` whenever `region_area ≤ 0` or
`total_area ≤ 0` — in particular it reports porosity 0 before any aggregate
has been committed — and otherwise returns `100 * clamp(1 - total/region, 0, 1)`,
so the result always lies in `[0, 100]`. -/
theorem calculatePorosity_spec (regionArea totalArea : ℚ) :
    calculatePorosity regionArea totalArea =
      (if regionArea ≤ 0 ∨ totalArea ≤ 0 then 0
       else 100 * max 0 (min 1 (1 - totalArea / regionArea))) ∧
    0 ≤ calculatePorosity regionArea totalArea ∧
    calculatePorosity regionArea totalArea ≤ 100 := by
  unfold calculatePorosity
  by_cases h : regionArea ≤ 0 ∨ totalArea ≤ 0
  · simp [h]
  · simp only [h, if_false]
    refine ⟨by ring, ?_, ?_⟩
    · have h0 : (0 : ℚ) ≤ max 0 (min 1 (1 - totalArea / regionArea)) := le_max_left _ _
      positivity
    · have h1 : max 0 (min 1 (1 - totalArea / regionArea)) ≤ 1 := by
        apply max_le (by norm_num)
        exact min_le_left _ _
      nlinarith

/-! ### C8 -/

theorem zip_mask_filter {β : Type} (p : β → Bool) (l : List β) :
    ((l.zip (l.map p)).filter (fun x => x.2)).map (fun x => x.1) = l.filter p := by
  induction l with
  | nil => rfl
  | cons x xs ih =>
      simp only [List.map_cons, List.zip_cons_cons, List.filter_cons]
      cases hp : p x <;> simp [hp, ih]

theorem possibleColliders_gpu_eq_cpu (e : Rect) (shapes : List Shape) :
    possibleCollidersGpu e shapes = possibleCollidersCpu e shapes := by
  unfold possibleCollidersGpu possibleCollidersCpu calculateDistancesGpu
  simp only [add_zero, sub_zero, List.map_map]
  exact zip_mask_filter _ shapes

/-- C8: the batch (vectorized) bounding-box pre-filter keeps exactly the
same candidate pairs, in the same order, as the per-pair bounding-box
separating-axis test, so `check_collision_hierarchical` returns the same
Boolean whichever pre-filter path runs, for every candidate shape, buffer
outline, existing set, `min_distance`, spatial index and distance oracle. -/
theorem checkCollision_gpu_path_equiv (dist : Shape → Shape → Except Unit ℚ)
    (newShape : Shape) (newItzShape : Option Shape) (existing : List Shape)
    (minDistance : ℚ) (quadtree : Option (QNode Agg)) :
    (∀ (e : Rect) (shapes : List Shape),
      possibleCollidersGpu e shapes = possibleCollidersCpu e shapes) ∧
    ∀ useGpu cudaAvailable : Bool,
      checkCollisionHierarchical dist newShape newItzShape existing minDistance
          quadtree useGpu cudaAvailable =
        checkCollisionHierarchical dist newShape newItzShape existing minDistance
          quadtree false false := by
  refine ⟨possibleColliders_gpu_eq_cpu, ?_⟩
  intro useGpu cudaAvailable
  unfold checkCollisionHierarchical
  simp only [possibleColliders_gpu_eq_cpu, ite_self, Bool.false_eq_true, false_and,
    if_false]

/-! ### C9 -/

/-- C9: an error raised while computing the exact distance for one pair is
caught for that pair alone: the exact pass is a total Boolean equal to
"some surviving pair contributes a collision", where an erroring pair
contributes `false`; a pair contributes a collision exactly when its
**successful** distance computations fall below `min_distance` (candidate
distance first, ITZ distance only when the candidate distance succeeded
and was not already below); and deleting a pair whose candidate-distance
computation raises from the surviving list does not change the result. -/
theorem exactPass_error_handling (dist : Shape → Shape → Except Unit ℚ)
    (newShape : Shape) (newItzShape : Option Shape) (minDistance : ℚ) :
    (∀ shapes : List Shape,
      exactPass dist newShape newItzShape minDistance shapes =
        shapes.any (pairCollides dist newShape newItzShape minDistance)) ∧
    (∀ s : Shape,
      pairCollides dist newShape newItzShape minDistance s = true ↔
        ((∃ d1, dist newShape s = Except.ok d1 ∧ d1 < minDistance) ∨
         (∃ d1, dist newShape s = Except.ok d1 ∧ ¬ d1 < minDistance ∧
           ∃ i, newItzShape = some i ∧
             ∃ d2, dist i s = Except.ok d2 ∧ d2 < minDistance))) ∧
    (∀ (l1 l2 : List Shape) (s : Shape), dist newShape s = Except.error () →
      exactPass dist newShape newItzShape minDistance (l1 ++ s :: l2) =
        exactPass dist newShape newItzShape minDistance (l1 ++ l2)) := by
  refine ⟨?_, ?_, ?_⟩
  · intro shapes
    induction shapes with
    | nil => rfl
    | cons s rest ih =>
        simp only [exactPass, List.any_cons, pairCollides]
        cases h : pairCheck dist newShape newItzShape minDistance s with
        | error e => simp [ih]
        | ok b => cases b <;> simp [ih]
  · intro s
    unfold pairCollides pairCheck
    cases hd : dist newShape s with
    | error e => simp [hd]
    | ok d1 =>
        by_cases h1 : d1 < minDistance
        · simp [hd, h1]
        · cases hitz : newItzShape with
          | none => simp [hd, h1, hitz]
          | some i =>
              cases hd2 : dist i s with
              | error e => simp [hd, h1, hitz, hd2]
              | ok d2 =>
                  simp [hd, h1, hitz, hd2]
                  exact fun _ => le_of_not_lt h1
  · intro l1 l2 s hs
    induction l1 with
    | nil =>
        simp only [List.nil_append, exactPass]
        have h0 : pairCheck dist newShape newItzShape minDistance s = Except.error () := by
          unfold pairCheck
          rw [hs]
        rw [h0]
    | cons x xs ih =>
        simp only [List.cons_append, exactPass, List.append_eq]
        rw [ih]


/-- Witness for `exactPass_error_handling`: deleting a pair whose distance
computation raises leaves the exact pass unchanged, at a concrete oracle
that raises on exactly that pair. -/
theorem exactPass_error_handling_witness :
    exactPass (fun s1 s2 => if s1.sid = 0 ∧ s2.sid = 9 then Except.error () else Except.ok 5)
        ⟨0, ⟨0, 0, 1, 1⟩⟩ none 1 ([] ++ ⟨9, ⟨3, 3, 4, 4⟩⟩ :: []) =
      exactPass (fun s1 s2 => if s1.sid = 0 ∧ s2.sid = 9 then Except.error () else Except.ok 5)
        ⟨0, ⟨0, 0, 1, 1⟩⟩ none 1 ([] ++ []) :=
  (exactPass_error_handling
      (fun s1 s2 => if s1.sid = 0 ∧ s2.sid = 9 then Except.error () else Except.ok 5)
      ⟨0, ⟨0, 0, 1, 1⟩⟩ none 1).2.2 [] [] ⟨9, ⟨3, 3, 4, 4⟩⟩ rfl

/-! ### C2 -/

/-- C2: the generation loop does **not** always terminate.  With
`mode = "count"`, a single group whose positive target area cannot be
reached (`target_area = 100`, `generated_area = 0`, `count = 0 <
max_count = 5`) and every candidate round failing its collision check, the
loop state after `n` rounds still has `running = true` for every `n`: no
exit condition ever fires, because `_check_exit_conditions` compares the
number of **committed** aggregates (`len(self.generated_aggregates)`,
which stays 0) — not the number of attempts — against
`max_attempts * sum(max_count)`, and the group stays below its area target
and its count cap.  The loop therefore runs forever, contrary to the
claimed attempt-cap safety valve. -/
theorem generation_loop_no_attempt_cap :
    ∀ n : ℕ,
      loopRun "count" 0 100 (fun _ => none) c2State n =
        { groups := [c2Group], totalArea := 0, committedCount := 0,
          totalAttempts := n, running := true } := by
  intro n
  induction n with
  | zero => rfl
  | succ n ih =>
      rw [loopRun, ih]
      show loopStep "count" 0 100 _ none = _
      rw [loopStep]
      norm_num [checkExitConditions, selectNextGroup, sortedBy, insertSortedBy,
        c2Group, c2State, updateGroupStats]
      decide

/-! ### C1 -/

/-- C1: the committed-set clearance invariant **fails** on the code when
ITZ buffers are present.  In this reachable run (`min_distance = 2`, CPU
path, a fresh quadtree over the region), three rectangular aggregates are
committed in order, each one passing the mandatory
`check_collision_hierarchical` re-check against the latest committed
state; yet the final state violates the claimed invariant: the exact
minimum distance between aggregate 1's buffered (ITZ) outline and
aggregate 3's outline is `1 < 2 = min_distance` (their boxes are separated
only along the x axis, so the outline distance equals the box distance,
whose square `rectDistSq` is `1`).  The violation arises because
`query_shapely` expands only the candidate's un-buffered bounds and the
index stores aggregates under un-buffered bounds, so aggregate 1 — whose
ITZ reaches within `min_distance` of aggregate 3 — is pruned away from
aggregate 3's re-check while another nearby aggregate keeps the pruned
list non-empty. -/
theorem itz_clearance_violated_in_reachable_run :
    (runCommits distCe 2 false false runStateCe [aggACe, aggCCe, aggBCe]).committed =
      [aggACe, aggCCe, aggBCe] ∧
    aggACe.itz = some ⟨2, ⟨-2, -2, 4, 12⟩⟩ ∧
    rectDistSq (⟨-2, -2, 4, 12⟩ : Rect) aggBCe.shape.bounds = 1 ∧
    ((1 : ℚ) < 2 ^ 2) := by
  refine ⟨?_, rfl, by norm_num [rectDistSq, rectGapX, rectGapY, aggBCe], by norm_num⟩
  norm_num [runCommits, commitStep, checkCollisionHierarchical, queryShapely,
    extractShapes, qQuery, qInsert, aggBounds, expandRect, expandedBBoxWithItz,
    possibleCollidersCpu, exactPass, pairCheck, distCe, intersectsBounds,
    aggACe, aggCCe, aggBCe, runStateCe, Option.toList]

end RandomCAD
